import Mathlib

/-
Verification of the python-semanticversion dependency-resolution library.

This file shallowly embeds the data model and the operations of
`semantic_version/base.py` and `semantic_version/edge.py`:

* the `Version` value type with its five fields and the `partial` flag
  (the flag is named `isPart` here because `partial` is a Lean keyword);
* the comparison pipeline (`base_cmp`, `identifier_cmp`,
  `identifier_list_cmp`, `prerelease_cmp`, `build_cmp`, `__compare`) and the
  rich comparison operators built on it;
* the bump operations `next_major` / `next_minor` / `next_patch`;
* strict parsing (`Version.parse` with `partial=False`) and formatting
  (`Version.__str__`);
* requirement kinds, `VersionReq.match`, `Spec` equality and hashing
  (hashing modelled with the deterministic CPython 2 hash algorithms for
  strings, ints and tuples, on 64-bit longs);
* the `Edges` accumulator of `edge.py` and its `append` normalization;
* the backtracking resolver `State.attempt_pkg_traversal` /
  `State.attempt_pkgVersion_traversal` / `solve`, as a fuel-indexed
  interpreter that also records every speculative lock in a ghost event log.

Machine integers appear only in the hash model and are handled as `Nat`
modulo `2 ^ 64`.  Fallible operations return `Option` / products with an
error component; Python exceptions (`NotSolved`, `TypeError`, `KeyError`,
`AssertionError`) are explicit error values.
-/

namespace Semantic

/-- Identifiers of prerelease/build components are Python strings. -/
abbrev Ident := String

/-- The `Version` value object of `base.py`.  In Python, `minor`, `patch`
may be `None` and `prerelease`/`build` may be `None` (unknown) or a tuple;
`None` is `none` here and a tuple is `some list`.  The Python `partial`
flag is called `isPart` (`partial` is a Lean keyword). -/
structure Version where
  major : Nat
  minor : Option Nat
  patch : Option Nat
  prerelease : Option (List Ident)
  build : Option (List Ident)
  isPart : Bool
deriving DecidableEq, Repr

/-- The plain constructor call `Version(major, minor, patch)` of the Python
code: prerelease and build default to `()` and `partial` to `False`. -/
def Version.mk3 (a b c : Nat) : Version :=
  ⟨a, some b, some c, some [], some [], false⟩

/-- Modelled from the spec: `compat.base_cmp` is not under `src/`; the spec
(§4.1) says numeric components are compared as integers, so this is the
classic three-way comparison returning -1, 0 or 1. -/
def base_cmp (a b : Nat) : Int :=
  if a < b then -1 else if b < a then 1 else 0

/-- Three-way comparison of integers (used for numeric identifiers, which
Python's `int()` may parse as negative). -/
def intCmp (a b : Int) : Int :=
  if a < b then -1 else if b < a then 1 else 0

/-- Modelled from the spec: Python string comparison (used by `base_cmp` on
non-numeric identifiers) is lexicographic on code points; a strict prefix
is smaller (§4.1 "else lexicographically as text"). -/
def strCmp : List Char → List Char → Int
  | [], [] => 0
  | [], _ :: _ => -1
  | _ :: _, [] => 1
  | a :: as, b :: bs =>
    if a.toNat < b.toNat then -1
    else if b.toNat < a.toNat then 1
    else strCmp as bs

/-- The `_to_int` helper of `base.py`: try `int(value)`.  An identifier is
numeric when it is (an optional `-` sign followed by) a nonempty digit
string; other `int()` extras (whitespace, underscores, a `+` sign) cannot
occur in the `[0-9a-zA-Z-]` identifier alphabet. -/
def toIntOpt (s : Ident) : Option Int :=
  match s.data with
  | [] => none
  | '-' :: rest =>
    if rest ≠ [] ∧ rest.all Char.isDigit then
      some (-(Int.ofNat (Nat.ofDigits 10 ((rest.map (fun c => c.toNat - 48)).reverse))))
    else none
  | l =>
    if l.all Char.isDigit then
      some (Int.ofNat (Nat.ofDigits 10 ((l.map (fun c => c.toNat - 48)).reverse)))
    else none

/-- The `identifier_cmp` function of `base.py`. -/
def identifier_cmp (a b : Ident) : Int :=
  match toIntOpt a, toIntOpt b with
  | some x, some y => intCmp x y
  | some _, none => -1
  | none, some _ => 1
  | none, none => strCmp a.data b.data

/-- The `identifier_list_cmp` function of `base.py`: pair identifiers left
to right, first nonzero comparison wins, else the longer list is greater. -/
def identifier_list_cmp : List Ident → List Ident → Int
  | [], [] => 0
  | [], _ :: _ => -1
  | _ :: _, [] => 1
  | x :: xs, y :: ys =>
    let c := identifier_cmp x y
    if c ≠ 0 then c else identifier_list_cmp xs ys

/-- The `prerelease_cmp` closure of `Version._comparison_functions`: no
prerelease has higher precedence than any prerelease. -/
def prerelease_cmp (a b : List Ident) : Int :=
  if ¬a.isEmpty ∧ ¬b.isEmpty then identifier_list_cmp a b
  else if ¬a.isEmpty then -1
  else if ¬b.isEmpty then 1
  else 0

/-- The `build_cmp` closure of `Version._comparison_functions`: equal build
metadata compares as 0, otherwise the comparison is `NotImplemented`
(`none` here). -/
def build_cmp (a b : List Ident) : Option Int :=
  if a = b then some 0 else none

/-- Optional-field comparison used in both comparison modes.  In partial
mode this is Python's `make_optional` (`None` matches everything).  In
strict mode a `None` component cannot occur on versions produced by
`Version.parse` or the bump operations; such ill-formed values are modelled
as comparing equal at that component. -/
def optCmp (f : α → α → Option Int) : Option α → Option α → Option Int
  | some x, some y => f x y
  | _, _ => some 0

/-- A chain of comparisons: the first nonzero (or `NotImplemented`) result
wins, exactly like the loop in `Version.__compare`. -/
def cmpChain : List (Option Int) → Option Int
  | [] => some 0
  | c :: cs =>
    match c with
    | none => none
    | some x => if x ≠ 0 then some x else cmpChain cs

/-- The `Version.__compare` method: compare the five fields in order, the
first nonzero (or `NotImplemented`) result winning.  `none` is Python's
`NotImplemented`.  Python selects the `make_optional`-wrapped comparison
functions when either version is partial and the unwrapped ones otherwise;
the two function lists differ only on `None` components, which non-partial
versions never carry, so both modes are the single chain below (the
wrapper is the identity whenever both components are present). -/
def vCompare (a b : Version) : Option Int :=
  cmpChain
    [ some (base_cmp a.major b.major),
      optCmp (fun x y => some (base_cmp x y)) a.minor b.minor,
      optCmp (fun x y => some (base_cmp x y)) a.patch b.patch,
      optCmp (fun x y => some (prerelease_cmp x y)) a.prerelease b.prerelease,
      optCmp build_cmp a.build b.build ]

/-- The operator `Version.__lt__`: `NotImplemented` yields `False`. -/
def pyLt (a b : Version) : Bool :=
  match vCompare a b with
  | some c => c < 0
  | none => false

/-- The operator `Version.__le__`: `NotImplemented` yields `False`. -/
def pyLe (a b : Version) : Bool :=
  match vCompare a b with
  | some c => c ≤ 0
  | none => false

/-- The operator `Version.__eq__`: `NotImplemented` yields `False`. -/
def pyEq (a b : Version) : Bool :=
  match vCompare a b with
  | some c => c = 0
  | none => false

/-- The operator `Version.__ne__`: `NotImplemented` yields `True`. -/
def pyNe (a b : Version) : Bool :=
  match vCompare a b with
  | some c => c ≠ 0
  | none => true

/-- The operator `Version.__gt__`: `NotImplemented` yields `False`. -/
def pyGt (a b : Version) : Bool :=
  match vCompare a b with
  | some c => 0 < c
  | none => false

/-- The operator `Version.__ge__`: `NotImplemented` yields `False`. -/
def pyGe (a b : Version) : Bool :=
  match vCompare a b with
  | some c => 0 ≤ c
  | none => false

/-- Python truthiness of a prerelease/build field: `None` and `()` are
falsy, a nonempty tuple is truthy. -/
def fieldTruthy : Option (List Ident) → Bool
  | none => false
  | some l => !l.isEmpty

/-- The `Version.next_major` method.  Its else-branch never reads `minor`
or `patch`, so it is total. -/
def Version.next_major (v : Version) : Option Version :=
  if fieldTruthy v.prerelease ∧ v.minor = some 0 ∧ v.patch = some 0 then
    some ⟨v.major, v.minor, v.patch, some [], some [], false⟩
  else
    some ⟨v.major + 1, some 0, some 0, some [], some [], false⟩

/-- The `Version.next_minor` method; `none` models the Python `TypeError`
of `None + 1` on a version with unknown minor. -/
def Version.next_minor (v : Version) : Option Version :=
  if fieldTruthy v.prerelease ∧ v.patch = some 0 then
    some ⟨v.major, v.minor, v.patch, some [], some [], false⟩
  else
    match v.minor with
    | some m => some ⟨v.major, some (m + 1), some 0, some [], some [], false⟩
    | none => none

/-- The `Version.next_patch` method; `none` models the Python `TypeError`
of `None + 1` on a version with unknown patch. -/
def Version.next_patch (v : Version) : Option Version :=
  if fieldTruthy v.prerelease then
    some ⟨v.major, v.minor, v.patch, some [], some [], false⟩
  else
    match v.patch with
    | some p => some ⟨v.major, v.minor, some (p + 1), some [], some [], false⟩
    | none => none

/-- A version is non-partial and fully populated: this is the shape every
version produced by strict `Version.parse` or by the bump operations has. -/
def NonPartialV (v : Version) : Prop :=
  v.isPart = false ∧ v.minor.isSome ∧ v.patch.isSome ∧
    v.prerelease.isSome ∧ v.build.isSome

instance : DecidablePred NonPartialV := fun _ => by
  unfold NonPartialV; infer_instance

section SmallLemmas

lemma base_cmp_self (a : Nat) : base_cmp a a = 0 := by
  simp [base_cmp]

lemma base_cmp_eq_zero_iff (a b : Nat) : base_cmp a b = 0 ↔ a = b := by
  unfold base_cmp
  split_ifs with h1 h2 <;> simp <;> omega

end SmallLemmas

section Claim8

/-- C8: for every non-partial Version `v`, `next_major v` keeps `major`
(stripping prerelease and build) exactly when the prerelease is non-empty
and minor and patch are 0, and otherwise bumps to `(major+1, 0, 0)`;
`next_minor` is the analogous no-op exactly when the prerelease is
non-empty and patch is 0; `next_patch` is the no-op exactly when the
prerelease is non-empty.  In particular `next_major 1.0.0 = 2.0.0` and
`next_major 1.0.0-pre = 1.0.0`. -/
theorem C8_next_bump_rules (v : Version) (mi pa : Nat) (pre bld : List Ident)
    (hP : v.isPart = false) (hmi : v.minor = some mi) (hpa : v.patch = some pa)
    (hpre : v.prerelease = some pre) (hbld : v.build = some bld) :
    (Version.next_major v =
      some (if pre ≠ [] ∧ mi = 0 ∧ pa = 0
            then ⟨v.major, v.minor, v.patch, some [], some [], false⟩
            else ⟨v.major + 1, some 0, some 0, some [], some [], false⟩))
  ∧ ((∃ w, Version.next_major v = some w ∧ w.major = v.major) ↔
      (pre ≠ [] ∧ mi = 0 ∧ pa = 0))
  ∧ (Version.next_minor v =
      some (if pre ≠ [] ∧ pa = 0
            then ⟨v.major, v.minor, v.patch, some [], some [], false⟩
            else ⟨v.major, some (mi + 1), some 0, some [], some [], false⟩))
  ∧ ((∃ w, Version.next_minor v = some w ∧ w.minor = v.minor) ↔
      (pre ≠ [] ∧ pa = 0))
  ∧ (Version.next_patch v =
      some (if pre ≠ []
            then ⟨v.major, v.minor, v.patch, some [], some [], false⟩
            else ⟨v.major, v.minor, some (pa + 1), some [], some [], false⟩))
  ∧ ((∃ w, Version.next_patch v = some w ∧ w.patch = v.patch) ↔ pre ≠ [])
  ∧ Version.next_major (Version.mk3 1 0 0) = some (Version.mk3 2 0 0)
  ∧ Version.next_major ⟨1, some 0, some 0, some ["pre"], some [], false⟩ =
      some (Version.mk3 1 0 0) := by
  obtain ⟨ma, mi', pa', pre', bld', pt⟩ := v
  simp only [Version.minor, Version.patch, Version.prerelease, Version.build,
    Version.isPart] at hP hmi hpa hpre hbld
  subst hP hmi hpa hpre hbld
  refine ⟨?_, ?_, ?_, ?_, ?_, ?_, by decide, by decide⟩
  · unfold Version.next_major fieldTruthy
    split_ifs with h1 h2 <;> simp_all
  · unfold Version.next_major fieldTruthy
    split_ifs with h1 <;> simp_all
  · unfold Version.next_minor fieldTruthy
    split_ifs with h1 h2 <;> simp_all
  · unfold Version.next_minor fieldTruthy
    split_ifs with h1 <;> simp_all
  · unfold Version.next_patch fieldTruthy
    split_ifs with h1 h2 <;> simp_all
  · unfold Version.next_patch fieldTruthy
    split_ifs with h1 <;> simp_all

/-- Witness for C8 at `v = 1.2.0-rc`. -/
theorem C8_next_bump_rules_witness :
    (⟨1, some 2, some 0, some ["rc"], some [], false⟩ : Version).isPart = false ∧
    Version.next_minor ⟨1, some 2, some 0, some ["rc"], some [], false⟩ =
      some ⟨1, some 2, some 0, some [], some [], false⟩ := by
  refine ⟨rfl, ?_⟩
  have h := C8_next_bump_rules ⟨1, some 2, some 0, some ["rc"], some [], false⟩
    2 0 ["rc"] [] rfl rfl rfl rfl rfl
  have h3 := h.2.2.1
  simpa using h3

end Claim8

section Claim2

lemma base_cmp_ne_zero {a b : Nat} (h : a ≠ b) : base_cmp a b ≠ 0 := by
  rw [Ne, base_cmp_eq_zero_iff]; exact h

lemma sign_count (c : Int) :
    (decide (c < 0)).toNat + (decide (c = 0)).toNat + (decide (0 < c)).toNat = 1 := by
  rcases lt_trichotomy c 0 with h | h | h
  · have h2 : ¬(c = 0) := by omega
    have h3 : ¬(0 < c) := by omega
    simp [h, h2, h3]
  · have h2 : ¬(c < 0) := by omega
    have h3 : ¬(0 < c) := by omega
    simp [h, h2, h3]
  · have h2 : ¬(c < 0) := by omega
    have h3 : ¬(c = 0) := by omega
    simp [h, h2, h3]

/-- Characterization of `NotImplemented`: the comparison of two fully
populated versions is undefined exactly when the numeric components agree,
the prereleases compare equal, and the build metadata differs. -/
lemma vCompare_none_iff (ma mb mia mib paa pab : Nat)
    (prea preb blda bldb : List Ident) (fa fb : Bool) :
    (vCompare ⟨ma, some mia, some paa, some prea, some blda, fa⟩
              ⟨mb, some mib, some pab, some preb, some bldb, fb⟩ = none)
    ↔ (ma = mb ∧ mia = mib ∧ paa = pab ∧
        prerelease_cmp prea preb = 0 ∧ blda ≠ bldb) := by
  simp only [vCompare, optCmp, cmpChain]
  by_cases h1 : ma = mb
  · subst h1
    simp only [base_cmp_self, ne_eq, not_true_eq_false, reduceIte,
      not_false_eq_true, true_and]
    by_cases h2 : mia = mib
    · subst h2
      simp only [base_cmp_self, ne_eq, not_true_eq_false, reduceIte,
        not_false_eq_true, true_and]
      by_cases h3 : paa = pab
      · subst h3
        simp only [base_cmp_self, ne_eq, not_true_eq_false, reduceIte,
          not_false_eq_true, true_and]
        by_cases h4 : prerelease_cmp prea preb = 0
        · simp only [h4, ne_eq, not_true_eq_false, reduceIte, true_and]
          unfold build_cmp
          by_cases h5 : blda = bldb
          · simp [h5]
          · simp [h5]
        · simp [h4]
      · simp [base_cmp_ne_zero h3, h3]
    · simp [base_cmp_ne_zero h2, h2]
  · simp [base_cmp_ne_zero h1, h1]

/-- C2 (amended): for every pair of non-partial versions, exactly one of
`a < b`, `a == b`, `a > b` holds, except when the numeric components agree
and the prereleases compare equal as identifier lists while the build
metadata differs; in that exceptional case `a < b`, `a > b`, `a <= b`,
`a >= b` and also `a == b` all return `False` (`a != b` returns `True`).
The original claim asserted `a == b` returns `True` there; the code's
`__eq__` maps `NotImplemented` to `False`. -/
theorem C2_order_trichotomy (ma mb mia mib paa pab : Nat)
    (prea preb blda bldb : List Ident) :
    (¬(ma = mb ∧ mia = mib ∧ paa = pab ∧
        prerelease_cmp prea preb = 0 ∧ blda ≠ bldb) →
      (pyLt ⟨ma, some mia, some paa, some prea, some blda, false⟩
            ⟨mb, some mib, some pab, some preb, some bldb, false⟩).toNat +
      (pyEq ⟨ma, some mia, some paa, some prea, some blda, false⟩
            ⟨mb, some mib, some pab, some preb, some bldb, false⟩).toNat +
      (pyGt ⟨ma, some mia, some paa, some prea, some blda, false⟩
            ⟨mb, some mib, some pab, some preb, some bldb, false⟩).toNat = 1)
  ∧ ((ma = mb ∧ mia = mib ∧ paa = pab ∧
        prerelease_cmp prea preb = 0 ∧ blda ≠ bldb) →
      pyLt ⟨ma, some mia, some paa, some prea, some blda, false⟩
           ⟨mb, some mib, some pab, some preb, some bldb, false⟩ = false ∧
      pyGt ⟨ma, some mia, some paa, some prea, some blda, false⟩
           ⟨mb, some mib, some pab, some preb, some bldb, false⟩ = false ∧
      pyLe ⟨ma, some mia, some paa, some prea, some blda, false⟩
           ⟨mb, some mib, some pab, some preb, some bldb, false⟩ = false ∧
      pyGe ⟨ma, some mia, some paa, some prea, some blda, false⟩
           ⟨mb, some mib, some pab, some preb, some bldb, false⟩ = false ∧
      pyEq ⟨ma, some mia, some paa, some prea, some blda, false⟩
           ⟨mb, some mib, some pab, some preb, some bldb, false⟩ = false ∧
      pyNe ⟨ma, some mia, some paa, some prea, some blda, false⟩
           ⟨mb, some mib, some pab, some preb, some bldb, false⟩ = true) := by
  constructor
  · intro hne
    have h : vCompare ⟨ma, some mia, some paa, some prea, some blda, false⟩
        ⟨mb, some mib, some pab, some preb, some bldb, false⟩ ≠ none := by
      rw [Ne, vCompare_none_iff]; exact hne
    obtain ⟨c, hc⟩ := Option.ne_none_iff_exists'.mp h
    simp only [pyLt, pyEq, pyGt, hc]
    exact sign_count c
  · intro hex
    have h : vCompare ⟨ma, some mia, some paa, some prea, some blda, false⟩
        ⟨mb, some mib, some pab, some preb, some bldb, false⟩ = none := by
      rw [vCompare_none_iff]; exact hex
    simp [pyLt, pyGt, pyLe, pyGe, pyEq, pyNe, h]

/-- Witness for C2 at `a = 1.2.3-rc`, `b = 1.2.4` (comparable pair) where
exactly one comparison holds. -/
theorem C2_order_trichotomy_witness :
    ¬((1 : Nat) = 1 ∧ (2 : Nat) = 2 ∧ (3 : Nat) = 4 ∧
        prerelease_cmp ["rc"] [] = 0 ∧ (["x"] : List Ident) ≠ []) ∧
    (pyLt ⟨1, some 2, some 3, some ["rc"], some ["x"], false⟩
          ⟨1, some 2, some 4, some [], some [], false⟩).toNat +
    (pyEq ⟨1, some 2, some 3, some ["rc"], some ["x"], false⟩
          ⟨1, some 2, some 4, some [], some [], false⟩).toNat +
    (pyGt ⟨1, some 2, some 3, some ["rc"], some ["x"], false⟩
          ⟨1, some 2, some 4, some [], some [], false⟩).toNat = 1 := by
  refine ⟨by decide, ?_⟩
  exact (C2_order_trichotomy 1 1 2 2 3 4 ["rc"] [] ["x"] []).1 (by decide)

/-- Counterexample to C2 as stated: `1.0.0+b1` and `1.0.0+b2` differ only
in their build metadata, yet `a == b` returns `False` (the claim asserts it
returns `True`). -/
theorem C2_counterexample :
    ((⟨1, some 0, some 0, some [], some ["b1"], false⟩ : Version).major =
      (⟨1, some 0, some 0, some [], some ["b2"], false⟩ : Version).major ∧
     (⟨1, some 0, some 0, some [], some ["b1"], false⟩ : Version).minor =
      (⟨1, some 0, some 0, some [], some ["b2"], false⟩ : Version).minor ∧
     (⟨1, some 0, some 0, some [], some ["b1"], false⟩ : Version).patch =
      (⟨1, some 0, some 0, some [], some ["b2"], false⟩ : Version).patch ∧
     (⟨1, some 0, some 0, some [], some ["b1"], false⟩ : Version).prerelease =
      (⟨1, some 0, some 0, some [], some ["b2"], false⟩ : Version).prerelease ∧
     (⟨1, some 0, some 0, some [], some ["b1"], false⟩ : Version).build ≠
      (⟨1, some 0, some 0, some [], some ["b2"], false⟩ : Version).build) ∧
    pyEq ⟨1, some 0, some 0, some [], some ["b1"], false⟩
         ⟨1, some 0, some 0, some [], some ["b2"], false⟩ = false := by
  refine ⟨⟨rfl, rfl, rfl, rfl, by decide⟩, by decide⟩

end Claim2

section EdgesModel

/-- The requirement kinds of `VersionReq` (`KIND_*` constants); `kempty`
is the empty-string kind `KIND_EMPTY` (an alias of `==` resolved during
requirement parsing and unhandled by `Edges.append`). -/
inductive ReqKind
  | any | lt | lte | eq | shorteq | kempty | gte | gt | neq | caret | tilde
  | compatible
deriving DecidableEq, Repr

/-- A requirement specification (`VersionReq`).  The version is `none` for
the `'*'` requirement, whose Python `version` attribute is the empty
string (falsy, not a Version). -/
structure VersionReq where
  kind : ReqKind
  version : Option Version
deriving DecidableEq, Repr

/-- Modelled from the spec: `Version.force_non_partial` is called
throughout `edge.py` but is not defined under `src/`.  Per §4.2 a partial
version whose numeric components are all known resolves (unknown
prerelease/build become empty, mirroring the source comment that
"prerelease and build get set to different things"), while a version with
unknown minor or patch is "still partial" and stays so. -/
def Version.force_non_part (v : Version) : Version :=
  if v.isPart then
    match v.minor, v.patch with
    | some mi, some pa =>
      ⟨v.major, some mi, some pa, some (v.prerelease.getD []),
        some (v.build.getD []), false⟩
    | _, _ => v
  else v

/-- Modelled from the spec: `VersionReq.force_non_partial` (not under
`src/`) resolves the requirement's version, keeping the kind. -/
def VersionReq.force_non_part (r : VersionReq) : VersionReq :=
  ⟨r.kind, r.version.map Version.force_non_part⟩

/-- Errors of `Edges.append`: `unresolvedVersion` is the spec's
`UnresolvedVersionError` (the Python code raises `TypeError("Partial req
versions are not allowed")`); `valueError` covers the final `ValueError`
branch and the attribute errors of malformed requirements. -/
inductive EdgeErr
  | unresolvedVersion | valueError
deriving DecidableEq, Repr

/-- The `Edges` accumulator: two sets of boundary versions.  `reqs_lt`
holds the versions of the `EdgeLt` (exclusive upper bound) objects and
`reqs_gte` those of the `EdgeGte` (inclusive lower bound) objects; the
Python sets are modelled as duplicate-free lists. -/
structure Edges where
  reqs_lt : List Version
  reqs_gte : List Version
deriving DecidableEq, Repr

/-- The `Edges()` constructor: both sets start empty. -/
def Edges.empty : Edges := ⟨[], []⟩

/-- Python `set.add`: a no-op when an equal version is already present. -/
def setAdd (l : List Version) (v : Version) : List Version :=
  if v ∈ l then l else l ++ [v]

/-- The `upper` bound computed in the `KIND_CARET` branch of
`Edges.append` (and of `VersionReq.match`): `next_major` when major is
nonzero, else `next_minor` when minor is nonzero (Python `None != 0` is
also true), else `next_patch`. -/
def caretUpper (v : Version) : Option Version :=
  if v.major ≠ 0 then v.next_major
  else if v.minor ≠ some 0 then v.next_minor
  else v.next_patch

/-- The `upper` bound computed in the `KIND_COMPATIBLE` branch:
`next_minor` when patch is specified, else `next_major`. -/
def compatUpper (v : Version) : Option Version :=
  if v.patch.isSome then v.next_minor else v.next_major

/-- The `Edges.append` method of `edge.py` for a single requirement: the
requirement is forced non-partial, a still-partial version is rejected,
and otherwise each kind contributes its boundary edges per the
normalization table.  The `EdgeLt`/`EdgeGte` constructors force their
version non-partial once more, as in the source. -/
def Edges.append (e : Edges) (reqOrSpec : VersionReq) : Except EdgeErr Edges :=
  let req := reqOrSpec.force_non_part
  if (match req.version with | some v => v.isPart | none => false) then
    .error .unresolvedVersion
  else
    match req.kind, req.version with
    | .lt, some version =>
      .ok ⟨setAdd e.reqs_lt version.force_non_part, e.reqs_gte⟩
    | .gte, some version =>
      .ok ⟨e.reqs_lt, setAdd e.reqs_gte version.force_non_part⟩
    | .eq, some version | .shorteq, some version =>
      .ok ⟨e.reqs_lt, setAdd e.reqs_gte version.force_non_part⟩
    | .neq, some version =>
      match version.next_patch with
      | some np =>
        .ok ⟨setAdd e.reqs_lt version.force_non_part,
             setAdd e.reqs_gte np.force_non_part⟩
      | none => .error .valueError
    | .any, _ =>
      .ok ⟨e.reqs_lt, setAdd e.reqs_gte (Version.mk3 0 0 1).force_non_part⟩
    | .lte, some version =>
      match version.next_patch with
      | some np => .ok ⟨setAdd e.reqs_lt np.force_non_part, e.reqs_gte⟩
      | none => .error .valueError
    | .gt, some version =>
      match version.next_patch with
      | some np => .ok ⟨e.reqs_lt, setAdd e.reqs_gte np.force_non_part⟩
      | none => .error .valueError
    | .caret, some version =>
      match caretUpper version with
      | some upper =>
        .ok ⟨setAdd e.reqs_lt upper.force_non_part,
             setAdd e.reqs_gte version.force_non_part⟩
      | none => .error .valueError
    | .tilde, some version =>
      match version.next_minor with
      | some upper =>
        .ok ⟨setAdd e.reqs_lt upper.force_non_part,
             setAdd e.reqs_gte version.force_non_part⟩
      | none => .error .valueError
    | .compatible, some version =>
      match compatUpper version with
      | some upper =>
        .ok ⟨setAdd e.reqs_lt upper.force_non_part,
             setAdd e.reqs_gte version.force_non_part⟩
      | none => .error .valueError
    | .kempty, _ => .error .valueError
    | _, none => .error .valueError

lemma force_nonpart_id {v : Version} (h : v.isPart = false) :
    v.force_non_part = v := by
  unfold Version.force_non_part
  simp [h]

end EdgesModel

instance {ε α : Type} [DecidableEq ε] [DecidableEq α] :
    DecidableEq (Except ε α) := fun x y =>
  match x, y with
  | .ok u, .ok v => decidable_of_iff (u = v) (by simp)
  | .error u, .error v => decidable_of_iff (u = v) (by simp)
  | .ok _, .error _ => isFalse (by simp)
  | .error _, .ok _ => isFalse (by simp)

section Claim6

/-- C6: normalization into boundary edges follows the table: on an empty
accumulator `!=1.2.3` yields exactly `UpperBound(1.2.3)` and
`LowerBound(1.2.4)`, `<=2.3.0` yields exactly `UpperBound(2.3.1)`, the
wildcard yields exactly `LowerBound(0.0.1)`, and for every non-partial
version `V`: `<V` yields `UpperBound(V)`, `>V` yields
`LowerBound(next_patch(V))`, `>=V` yields `LowerBound(V)` and `==V`
yields `LowerBound(V)`. -/
theorem C6_edge_normalization_table (ma mi pa : Nat) (pre bld : List Ident) :
    Edges.append Edges.empty ⟨.neq, some (Version.mk3 1 2 3)⟩ =
      .ok ⟨[Version.mk3 1 2 3], [Version.mk3 1 2 4]⟩
  ∧ Edges.append Edges.empty ⟨.lte, some (Version.mk3 2 3 0)⟩ =
      .ok ⟨[Version.mk3 2 3 1], []⟩
  ∧ Edges.append Edges.empty ⟨.any, none⟩ =
      .ok ⟨[], [Version.mk3 0 0 1]⟩
  ∧ Edges.append Edges.empty
        ⟨.lt, some ⟨ma, some mi, some pa, some pre, some bld, false⟩⟩ =
      .ok ⟨[⟨ma, some mi, some pa, some pre, some bld, false⟩], []⟩
  ∧ (∃ np, Version.next_patch ⟨ma, some mi, some pa, some pre, some bld, false⟩ =
        some np ∧
      Edges.append Edges.empty
          ⟨.gt, some ⟨ma, some mi, some pa, some pre, some bld, false⟩⟩ =
        .ok ⟨[], [np]⟩)
  ∧ Edges.append Edges.empty
        ⟨.gte, some ⟨ma, some mi, some pa, some pre, some bld, false⟩⟩ =
      .ok ⟨[], [⟨ma, some mi, some pa, some pre, some bld, false⟩]⟩
  ∧ Edges.append Edges.empty
        ⟨.eq, some ⟨ma, some mi, some pa, some pre, some bld, false⟩⟩ =
      .ok ⟨[], [⟨ma, some mi, some pa, some pre, some bld, false⟩]⟩ := by
  have hid : Version.force_non_part ⟨ma, some mi, some pa, some pre, some bld, false⟩ =
      ⟨ma, some mi, some pa, some pre, some bld, false⟩ := force_nonpart_id rfl
  refine ⟨by decide, by decide, by decide, ?_, ?_, ?_, ?_⟩
  · simp [Edges.append, VersionReq.force_non_part, hid, setAdd, Edges.empty]
  · refine ⟨(Version.next_patch ⟨ma, some mi, some pa, some pre, some bld, false⟩).getD
      (Version.mk3 0 0 0), ?_, ?_⟩
    · unfold Version.next_patch
      split_ifs <;> rfl
    · unfold Version.next_patch
      split_ifs with h
      · simp [Edges.append, VersionReq.force_non_part, hid, setAdd, Edges.empty,
          Version.next_patch, h, force_nonpart_id]
      · simp [Edges.append, VersionReq.force_non_part, hid, setAdd, Edges.empty,
          Version.next_patch, h, force_nonpart_id]
  · simp [Edges.append, VersionReq.force_non_part, hid, setAdd, Edges.empty]
  · simp [Edges.append, VersionReq.force_non_part, hid, setAdd, Edges.empty]

end Claim6

section Claim7

/-- An accumulator whose every edge carries a fully-resolved, non-partial
version. -/
def Edges.resolved (e : Edges) : Prop :=
  (∀ v ∈ e.reqs_lt, NonPartialV v) ∧ (∀ v ∈ e.reqs_gte, NonPartialV v)

/-- Well-formed versions as Python constructs them: either partial, or
fully populated (per the `Version.__init__` comment: when `partial` is
False, prerelease and build must be `()`). -/
def VersionWF (v : Version) : Prop := v.isPart = true ∨ NonPartialV v

/-- A requirement is well-formed when its version (if any) is. -/
def VersionReq.wf (r : VersionReq) : Prop :=
  ∀ v, r.version = some v → VersionWF v

lemma force_nonpart_np {v : Version} (hwf : VersionWF v)
    (h : (Version.force_non_part v).isPart = false) :
    NonPartialV (Version.force_non_part v) := by
  rcases hwf with hp | hnp
  · unfold Version.force_non_part at h ⊢
    simp only [hp, if_true] at h ⊢
    rcases hmi : v.minor with _ | mi <;> rcases hpa : v.patch with _ | pa <;>
      simp only [hmi, hpa] at h ⊢ <;>
      first
        | exact ⟨rfl, rfl, rfl, rfl, rfl⟩
        | exact absurd h (by simp [hp])
  · rw [force_nonpart_id hnp.1]
    exact hnp

lemma next_patch_np {v w : Version} (hv : NonPartialV v)
    (h : Version.next_patch v = some w) : NonPartialV w := by
  obtain ⟨h1, h2, h3, h4, h5⟩ := hv
  unfold Version.next_patch at h
  split_ifs at h
  · cases h
    exact ⟨rfl, h2, h3, rfl, rfl⟩
  · rcases hpa : v.patch with _ | pa
    · rw [hpa] at h; cases h
    · rw [hpa] at h
      cases h
      exact ⟨rfl, h2, rfl, rfl, rfl⟩

lemma next_minor_np {v w : Version} (hv : NonPartialV v)
    (h : Version.next_minor v = some w) : NonPartialV w := by
  obtain ⟨h1, h2, h3, h4, h5⟩ := hv
  unfold Version.next_minor at h
  split_ifs at h
  · cases h
    exact ⟨rfl, h2, h3, rfl, rfl⟩
  · rcases hmi : v.minor with _ | mi
    · rw [hmi] at h; cases h
    · rw [hmi] at h
      cases h
      exact ⟨rfl, rfl, rfl, rfl, rfl⟩

lemma next_major_np {v w : Version}
    (h : Version.next_major v = some w) : NonPartialV w := by
  unfold Version.next_major at h
  split_ifs at h with hc
  · cases h
    exact ⟨rfl, by simp [hc.2.1], by simp [hc.2.2], rfl, rfl⟩
  · cases h
    exact ⟨rfl, rfl, rfl, rfl, rfl⟩

lemma caret_upper_np {v u : Version} (hv : NonPartialV v)
    (h : caretUpper v = some u) : NonPartialV u := by
  unfold caretUpper at h
  split_ifs at h
  · exact next_major_np h
  · exact next_minor_np hv h
  · exact next_patch_np hv h

lemma compatible_upper_np {v u : Version} (hv : NonPartialV v)
    (h : compatUpper v = some u) : NonPartialV u := by
  unfold compatUpper at h
  split_ifs at h
  · exact next_minor_np hv h
  · exact next_major_np h

lemma setAdd_mem {l : List Version} {v w : Version} (h : w ∈ setAdd l v) :
    w ∈ l ∨ w = v := by
  unfold setAdd at h
  split_ifs at h with hc
  · exact Or.inl h
  · rcases List.mem_append.mp h with h1 | h1
    · exact Or.inl h1
    · simp at h1
      exact Or.inr h1

lemma resolved_add_lt {lt gte : List Version} {v : Version}
    (h : Edges.resolved ⟨lt, gte⟩) (hv : NonPartialV v) :
    Edges.resolved ⟨setAdd lt v, gte⟩ := by
  refine ⟨?_, h.2⟩
  intro w hw
  rcases setAdd_mem hw with h1 | h1
  · exact h.1 w h1
  · subst h1; exact hv

lemma resolved_add_gte {lt gte : List Version} {v : Version}
    (h : Edges.resolved ⟨lt, gte⟩) (hv : NonPartialV v) :
    Edges.resolved ⟨lt, setAdd gte v⟩ := by
  refine ⟨h.1, ?_⟩
  intro w hw
  rcases setAdd_mem hw with h1 | h1
  · exact h.2 w h1
  · subst h1; exact hv

/-- C7: appending a requirement whose version is still partial (it remains
partial even after `force_non_partial`) fails with the
`UnresolvedVersionError`, before any edge is added; and `append` preserves
the invariant that every edge stored in the accumulator carries a
fully-resolved, non-partial version. -/
theorem C7_partial_rejected_edges_resolved (e e' : Edges) (r : VersionReq)
    (hwf : VersionReq.wf r) :
    (∀ v, r.version = some v → (Version.force_non_part v).isPart = true →
      Edges.append e r = .error .unresolvedVersion)
  ∧ (Edges.append e r = .ok e' → Edges.resolved e → Edges.resolved e') := by
  obtain ⟨k, ov⟩ := r
  constructor
  · intro v hv hp
    have hov : ov = some v := hv
    subst hov
    unfold Edges.append
    simp [VersionReq.force_non_part, hp]
  · intro hap hres
    rcases ov with _ | v
    · -- the version attribute is the falsy '' placeholder: only '*' adds
      rcases k <;>
        (unfold Edges.append at hap
         simp only [VersionReq.force_non_part, Option.map_none',
           Bool.false_eq_true, if_false, Except.ok.injEq] at hap) <;>
        first
          | exact Except.noConfusion hap
          | (subst hap
             exact resolved_add_gte hres ⟨rfl, rfl, rfl, rfl, rfl⟩)
    · by_cases hp : (Version.force_non_part v).isPart = true
      · -- still-partial versions are rejected, so `.ok` is impossible
        unfold Edges.append at hap
        simp [VersionReq.force_non_part, hp] at hap
      · replace hp : (Version.force_non_part v).isPart = false := by
          simpa using hp
        have hnpv : NonPartialV (Version.force_non_part v) :=
          force_nonpart_np (hwf v rfl) hp
        have hfix : (Version.force_non_part v).force_non_part =
            Version.force_non_part v := force_nonpart_id hp
        rcases k
        · -- any
          unfold Edges.append at hap
          simp only [VersionReq.force_non_part, Option.map_some', hp,
            Bool.false_eq_true, if_false, Except.ok.injEq] at hap
          rw [← hap]
          exact resolved_add_gte hres ⟨rfl, rfl, rfl, rfl, rfl⟩
        · -- lt
          unfold Edges.append at hap
          simp only [VersionReq.force_non_part, Option.map_some', hp,
            Bool.false_eq_true, if_false, Except.ok.injEq] at hap
          rw [← hap, hfix]
          exact resolved_add_lt hres hnpv
        · -- lte
          rcases hnp : (Version.force_non_part v).next_patch with _ | np
          · unfold Edges.append at hap
            simp [VersionReq.force_non_part, hp, hnp] at hap
          · unfold Edges.append at hap
            simp only [VersionReq.force_non_part, Option.map_some', hp,
              Bool.false_eq_true, if_false, hnp, Except.ok.injEq] at hap
            have hnpw : NonPartialV np := next_patch_np hnpv hnp
            rw [← hap, force_nonpart_id hnpw.1]
            exact resolved_add_lt hres hnpw
        · -- eq
          unfold Edges.append at hap
          simp only [VersionReq.force_non_part, Option.map_some', hp,
            Bool.false_eq_true, if_false, Except.ok.injEq] at hap
          rw [← hap, hfix]
          exact resolved_add_gte hres hnpv
        · -- shorteq
          unfold Edges.append at hap
          simp only [VersionReq.force_non_part, Option.map_some', hp,
            Bool.false_eq_true, if_false, Except.ok.injEq] at hap
          rw [← hap, hfix]
          exact resolved_add_gte hres hnpv
        · -- kempty
          unfold Edges.append at hap
          simp [VersionReq.force_non_part, hp] at hap
        · -- gte
          unfold Edges.append at hap
          simp only [VersionReq.force_non_part, Option.map_some', hp,
            Bool.false_eq_true, if_false, Except.ok.injEq] at hap
          rw [← hap, hfix]
          exact resolved_add_gte hres hnpv
        · -- gt
          rcases hnp : (Version.force_non_part v).next_patch with _ | np
          · unfold Edges.append at hap
            simp [VersionReq.force_non_part, hp, hnp] at hap
          · unfold Edges.append at hap
            simp only [VersionReq.force_non_part, Option.map_some', hp,
              Bool.false_eq_true, if_false, hnp, Except.ok.injEq] at hap
            have hnpw : NonPartialV np := next_patch_np hnpv hnp
            rw [← hap, force_nonpart_id hnpw.1]
            exact resolved_add_gte hres hnpw
        · -- neq
          rcases hnp : (Version.force_non_part v).next_patch with _ | np
          · unfold Edges.append at hap
            simp [VersionReq.force_non_part, hp, hnp] at hap
          · unfold Edges.append at hap
            simp only [VersionReq.force_non_part, Option.map_some', hp,
              Bool.false_eq_true, if_false, hnp, Except.ok.injEq] at hap
            have hnpw : NonPartialV np := next_patch_np hnpv hnp
            rw [← hap, hfix, force_nonpart_id hnpw.1]
            exact resolved_add_gte (resolved_add_lt hres hnpv) hnpw
        · -- caret
          rcases hu : caretUpper (Version.force_non_part v) with _ | upper
          · unfold Edges.append at hap
            simp [VersionReq.force_non_part, hp, hu] at hap
          · unfold Edges.append at hap
            simp only [VersionReq.force_non_part, Option.map_some', hp,
              Bool.false_eq_true, if_false, hu, Except.ok.injEq] at hap
            have hup : NonPartialV upper := caret_upper_np hnpv hu
            rw [← hap, hfix, force_nonpart_id hup.1]
            exact resolved_add_gte (resolved_add_lt hres hup) hnpv
        · -- tilde
          rcases hu : (Version.force_non_part v).next_minor with _ | upper
          · unfold Edges.append at hap
            simp [VersionReq.force_non_part, hp, hu] at hap
          · unfold Edges.append at hap
            simp only [VersionReq.force_non_part, Option.map_some', hp,
              Bool.false_eq_true, if_false, hu, Except.ok.injEq] at hap
            have hup : NonPartialV upper := next_minor_np hnpv hu
            rw [← hap, hfix, force_nonpart_id hup.1]
            exact resolved_add_gte (resolved_add_lt hres hup) hnpv
        · -- compatible
          rcases hu : compatUpper (Version.force_non_part v) with _ | upper
          · unfold Edges.append at hap
            simp [VersionReq.force_non_part, hp, hu] at hap
          · unfold Edges.append at hap
            simp only [VersionReq.force_non_part, Option.map_some', hp,
              Bool.false_eq_true, if_false, hu, Except.ok.injEq] at hap
            have hup : NonPartialV upper := compatible_upper_np hnpv hu
            rw [← hap, hfix, force_nonpart_id hup.1]
            exact resolved_add_gte (resolved_add_lt hres hup) hnpv

/-- Witness for C7: the requirement `<1.2` (partial version with unknown
patch) is rejected with the unresolved-version error, and appending
`>=1.2.3` to the empty accumulator keeps every stored edge resolved. -/
theorem C7_partial_rejected_edges_resolved_witness :
    VersionReq.wf ⟨.lt, some ⟨1, some 2, none, none, none, true⟩⟩ ∧
    Edges.append Edges.empty ⟨.lt, some ⟨1, some 2, none, none, none, true⟩⟩ =
      .error .unresolvedVersion ∧
    Edges.resolved ⟨[], [Version.mk3 1 2 3]⟩ := by
  have hwf : VersionReq.wf ⟨.lt, some ⟨1, some 2, none, none, none, true⟩⟩ := by
    intro v hv
    cases hv
    exact Or.inl rfl
  refine ⟨hwf, ?_, ?_⟩
  · exact (C7_partial_rejected_edges_resolved Edges.empty Edges.empty
      ⟨.lt, some ⟨1, some 2, none, none, none, true⟩⟩ hwf).1
      ⟨1, some 2, none, none, none, true⟩ rfl (by decide)
  · have hwf2 : VersionReq.wf ⟨.gte, some (Version.mk3 1 2 3)⟩ := by
      intro v hv
      cases hv
      exact Or.inr ⟨rfl, rfl, rfl, rfl, rfl⟩
    have h := (C7_partial_rejected_edges_resolved Edges.empty
      ⟨[], [Version.mk3 1 2 3]⟩ ⟨.gte, some (Version.mk3 1 2 3)⟩ hwf2).2
    apply h
    · decide
    · exact ⟨fun v hv => absurd hv (List.not_mem_nil v), fun v hv => absurd hv (List.not_mem_nil v)⟩

end Claim7

section Claim10

/-- The modulus of CPython's 64-bit `long` hash values. -/
def M64 : Nat := 2 ^ 64

/-- The CPython 2 string hash (`string_hash`/`unicode_hash`, deterministic,
64-bit `long`): `x = s[0] << 7`, then `x = (1000003*x) ^ c` over all
characters, then `x ^= len(s)`, with `-1` mapped to `-2`.  CPython 3
randomizes string hashes per process; the repository supports Python 2
(`compat`, `unicode_literals`), whose hashes are deterministic, so the
Python 2 algorithm is the modelled semantics. -/
def pyHashStr (s : List Char) : Nat :=
  match s with
  | [] => 0
  | c0 :: _ =>
    let x0 := (c0.toNat <<< 7) % M64
    let x := s.foldl (fun x c => ((1000003 * x) % M64) ^^^ c.toNat) x0
    let x := x ^^^ s.length
    if x = M64 - 1 then M64 - 2 else x

/-- The CPython 2 tuple hash (`tuplehash`) inner loop: `len` is
decremented before each item and feeds the multiplier update. -/
def tupleHashAux : List Nat → Nat → Nat → Nat → Nat
  | [], x, _, _ => x
  | y :: ys, x, mult, len =>
    let lenD := len - 1
    let x2 := ((x ^^^ y) * mult) % M64
    let mult2 := (mult + 82520 + lenD + lenD) % M64
    tupleHashAux ys x2 mult2 lenD

/-- The CPython 2 tuple hash: combine the item hashes in order with an
evolving multiplier; the result depends on the order of the items. -/
def pyHashTuple (hs : List Nat) : Nat :=
  let x := tupleHashAux hs 0x345678 1000003 hs.length
  let x := (x + 97531) % M64
  if x = M64 - 1 then M64 - 2 else x

/-- `Version.__hash__`: the hash of the 5-tuple of fields.  Small
non-negative ints hash to themselves and identifier tuples via the tuple
and string hashes.  A `None` component hashes by object identity in
Python (not deterministic); the model maps it to 0 and is used only on
fully populated versions. -/
def pyHashVersion (v : Version) : Nat :=
  pyHashTuple
    [ v.major,
      v.minor.getD 0,
      v.patch.getD 0,
      match v.prerelease with
      | some ids => pyHashTuple (ids.map (fun i => pyHashStr i.data))
      | none => 0,
      match v.build with
      | some ids => pyHashTuple (ids.map (fun i => pyHashStr i.data))
      | none => 0 ]

/-- The `KIND_*` constant string of each requirement kind. -/
def ReqKind.str : ReqKind → List Char
  | .any => ['*']
  | .lt => ['<']
  | .lte => ['<', '=']
  | .eq => ['=', '=']
  | .shorteq => ['=']
  | .kempty => []
  | .gte => ['>', '=']
  | .gt => ['>']
  | .neq => ['!', '=']
  | .caret => ['^']
  | .tilde => ['~']
  | .compatible => ['~', '=']

/-- `VersionReq.__hash__`: `hash((self.kind, self.version))`.  For the
`'*'` requirement the version attribute is the empty string, whose hash
is 0 = `pyHashStr []`. -/
def pyHashReq (r : VersionReq) : Nat :=
  pyHashTuple
    [ pyHashStr r.kind.str,
      match r.version with
      | some v => pyHashVersion v
      | none => pyHashStr [] ]

/-- The `Spec` range set of `base.py`: an ordered tuple of requirements. -/
structure Spec where
  requirements : List VersionReq
deriving DecidableEq, Repr

/-- `Spec.__hash__`: `hash(self.requirements)` — the hash of the ordered
tuple of requirements. -/
def Spec.pyHash (s : Spec) : Nat :=
  pyHashTuple (s.requirements.map pyHashReq)

/-- `Spec.__eq__`: `set(self.requirements) == set(other.requirements)` —
order-independent set equality.  Membership is structural equality, which
coincides with `VersionReq.__eq__` on the concrete requirements used
here. -/
def Spec.eqSpec (s1 s2 : Spec) : Bool :=
  s1.requirements.all (· ∈ s2.requirements) &&
    s2.requirements.all (· ∈ s1.requirements)

/-- C10: two Specs built from the same requirements `>=1.0.0`, `<2.0.0`
listed in different orders compare equal under `==` (set-based) yet hash
differently, because `Spec.__hash__` hashes the ordered requirements
tuple. -/
theorem C10_spec_eq_set_hash_ordered :
    Spec.eqSpec ⟨[⟨.gte, some (Version.mk3 1 0 0)⟩, ⟨.lt, some (Version.mk3 2 0 0)⟩]⟩
                ⟨[⟨.lt, some (Version.mk3 2 0 0)⟩, ⟨.gte, some (Version.mk3 1 0 0)⟩]⟩ = true
  ∧ (⟨[⟨.gte, some (Version.mk3 1 0 0)⟩, ⟨.lt, some (Version.mk3 2 0 0)⟩]⟩ : Spec).requirements ≠
    (⟨[⟨.lt, some (Version.mk3 2 0 0)⟩, ⟨.gte, some (Version.mk3 1 0 0)⟩]⟩ : Spec).requirements
  ∧ Spec.pyHash ⟨[⟨.gte, some (Version.mk3 1 0 0)⟩, ⟨.lt, some (Version.mk3 2 0 0)⟩]⟩ ≠
    Spec.pyHash ⟨[⟨.lt, some (Version.mk3 2 0 0)⟩, ⟨.gte, some (Version.mk3 1 0 0)⟩]⟩ := by
  refine ⟨by decide, by decide, by decide⟩

end Claim10

section ParseFormat

/-- ASCII decimal digit test: the `\d` of the strict version regex. -/
def isDigitC (c : Char) : Bool := 48 ≤ c.toNat && c.toNat ≤ 57

/-- The identifier alphabet `[0-9a-zA-Z-]` of prerelease/build components
(the `.` of the regex class is the component separator). -/
def isIdChar (c : Char) : Bool :=
  isDigitC c || (65 ≤ c.toNat && c.toNat ≤ 90) ||
    (97 ≤ c.toNat && c.toNat ≤ 122) || c = '-'

/-- Numeric value of a digit character. -/
def charVal (c : Char) : Nat := c.toNat - 48

/-- Digit character of a value below 10. -/
def digitCh : Nat → Char
  | 0 => '0' | 1 => '1' | 2 => '2' | 3 => '3' | 4 => '4'
  | 5 => '5' | 6 => '6' | 7 => '7' | 8 => '8' | _ => '9'

/-- Python `int()` on a digit string. -/
def charsToNat (s : List Char) : Nat :=
  Nat.ofDigits 10 ((s.map charVal).reverse)

/-- Python `'%d' % n`: decimal rendering without leading zeros. -/
def natToChars (n : Nat) : List Char :=
  if n = 0 then ['0'] else ((Nat.digits 10 n).map digitCh).reverse

/-- Split a character list at the first occurrence of `t`: the part before
it, and the part after it when `t` occurs. -/
def splitOnFirst (t : Char) : List Char → List Char × Option (List Char)
  | [] => ([], none)
  | c :: cs =>
    if c = t then ([], some cs)
    else
      let r := splitOnFirst t cs
      (c :: r.1, r.2)

/-- Python `str.split('.')`: always at least one (possibly empty) group. -/
def splitDots : List Char → List (List Char)
  | [] => [[]]
  | c :: cs =>
    if c = '.' then [] :: splitDots cs
    else
      match splitDots cs with
      | [] => [[c]]
      | g :: gs => (c :: g) :: gs

/-- Python `'.'.join(...)`. -/
def joinDots : List (List Char) → List Char
  | [] => []
  | [g] => g
  | g :: gs => g ++ '.' :: joinDots gs

/-- Parse one numeric component: a nonempty digit string; a leading zero
(other than the literal `0`) raises `ValueError` in `Version.parse` and is
a parse failure here. -/
def parseNat (s : List Char) : Option Nat :=
  if !s.isEmpty && s.all isDigitC && (s.head? != some '0' || s == ['0']) then
    some (charsToNat s)
  else none

/-- Validity of one dot-separated identifier, as the combination of the
regex alphabet and `Version._validate_identifiers`: nonempty, identifier
characters only, and (for prerelease components) no leading zero on a
numeric identifier. -/
def validIdGroup (az : Bool) (g : List Char) : Bool :=
  !g.isEmpty && g.all isIdChar &&
    (az || !(g.head? == some '0' && g.all isDigitC && g != ['0']))

/-- Parse a prerelease (`az = false`) or build (`az = true`) section: the
regex requires a nonempty `[0-9a-zA-Z.-]+` section, split on dots and
validated identifier-wise. -/
def parseIds (az : Bool) (p : List Char) : Option (List Ident) :=
  if p.isEmpty then none
  else if (splitDots p).all (validIdGroup az) then
    some ((splitDots p).map (fun g => String.mk g))
  else none

/-- Strict `Version.parse` (`partial=False`): the anchored regex
`(\d+)\.(\d+)\.(\d+)(?:-([0-9a-zA-Z.-]+))?(?:\+([0-9a-zA-Z.-]+))?`
decomposed as: split at the first `+` (the build separator; `+` occurs in
no other group), split the remainder at the first `-` (the prerelease
separator; the numeric core is digits and dots only), require exactly
three numeric components, and validate the identifier sections.  Both a
regex mismatch and the `ValueError`s of leading zeros / empty identifiers
are `none`. -/
def parseSection (az : Bool) : Option (List Char) → Option (List Ident)
  | none => some []
  | some p => parseIds az p

/-- The numeric core and the two optional sections, assembled: exactly
three dot-separated numeric components, each section validated. -/
def parseCore (nums : List Char) (opre obld : Option (List Char)) :
    Option Version :=
  match splitDots nums with
  | [a, b, c] =>
    match parseNat a, parseNat b, parseNat c with
    | some ma, some mi, some pa =>
      match parseSection false opre, parseSection true obld with
      | some pids, some bids =>
        some ⟨ma, some mi, some pa, some pids, some bids, false⟩
      | _, _ => none
    | _, _, _ => none
  | _ => none

def parseVersionChars (s : List Char) : Option Version :=
  match splitOnFirst '+' s with
  | (corePre, obld) =>
    match splitOnFirst '-' corePre with
    | (nums, opre) => parseCore nums opre obld

/-- The `Version.__str__` method, including its partial-mode quirks (an
explicitly empty prerelease with unknown build renders a bare `-`, an
explicitly empty build renders a bare `+`). -/
def versionStr (v : Version) : List Char :=
  let s1 := natToChars v.major
  let s2 := s1 ++ (match v.minor with | some m => '.' :: natToChars m | none => [])
  let s3 := s2 ++ (match v.patch with | some p => '.' :: natToChars p | none => [])
  let s4 := s3 ++
    (if fieldTruthy v.prerelease ||
        (v.isPart && v.prerelease == some [] && v.build == none) then
      '-' :: joinDots ((v.prerelease.getD []).map String.data)
    else [])
  s4 ++
    (if fieldTruthy v.build || (v.isPart && v.build == some []) then
      '+' :: joinDots ((v.build.getD []).map String.data)
    else [])

/-- An identifier acceptable to the strict grammar. -/
def validId (az : Bool) (x : Ident) : Bool := validIdGroup az x.data

/-- A Version value producible by strict parsing: non-partial, fully
populated, with grammar-valid identifiers. -/
def ValidVersion (v : Version) : Bool :=
  !v.isPart && v.minor.isSome && v.patch.isSome &&
    (match v.prerelease with
     | some pre => pre.all (validId false)
     | none => false) &&
    (match v.build with
     | some bld => bld.all (validId true)
     | none => false)

end ParseFormat

section SplitLemmas

lemma char_toNat_inj {a b : Char} (h : a.toNat = b.toNat) : a = b :=
  Char.ofNat_toNat a ▸ Char.ofNat_toNat b ▸ congrArg Char.ofNat h

lemma isDigitC_bounds {c : Char} (h : isDigitC c = true) :
    48 ≤ c.toNat ∧ c.toNat ≤ 57 := by
  simp only [isDigitC, Bool.and_eq_true, decide_eq_true_eq] at h
  exact h

lemma charVal_lt {c : Char} (h : isDigitC c = true) : charVal c < 10 := by
  have := isDigitC_bounds h
  unfold charVal
  omega

lemma digitCh_toNat {k : Nat} (h : k < 10) : (digitCh k).toNat = 48 + k := by
  interval_cases k <;> decide

lemma digitCh_val {k : Nat} (h : k < 10) : charVal (digitCh k) = k := by
  interval_cases k <;> decide

lemma digitCh_isDigit {k : Nat} (h : k < 10) : isDigitC (digitCh k) = true := by
  interval_cases k <;> decide

lemma digitCh_eq_zero {k : Nat} (h : k < 10) : digitCh k = '0' ↔ k = 0 := by
  interval_cases k <;> simp <;> decide

lemma digitCh_charVal {c : Char} (h : isDigitC c = true) :
    digitCh (charVal c) = c := by
  have hb := isDigitC_bounds h
  have hv : charVal c < 10 := charVal_lt h
  apply char_toNat_inj
  rw [digitCh_toNat hv]
  unfold charVal
  omega

lemma charVal_ne_zero {c : Char} (h : isDigitC c = true) (hne : c ≠ '0') :
    charVal c ≠ 0 := by
  have hb := isDigitC_bounds h
  intro h0
  apply hne
  apply char_toNat_inj
  have : c.toNat = 48 := by unfold charVal at h0; omega
  rw [this]; decide

lemma digit_ne_seps {c : Char} (h : isDigitC c = true) :
    c ≠ '.' ∧ c ≠ '+' ∧ c ≠ '-' := by
  refine ⟨?_, ?_, ?_⟩ <;> rintro rfl <;> exact absurd h (by decide)

lemma idChar_ne_seps {c : Char} (h : isIdChar c = true) :
    c ≠ '.' ∧ c ≠ '+' := by
  refine ⟨?_, ?_⟩ <;> rintro rfl <;> exact absurd h (by decide)

lemma splitOnFirst_eq_none {t : Char} {s : List Char} (h : t ∉ s) :
    splitOnFirst t s = (s, none) := by
  induction s with
  | nil => rfl
  | cons c cs ih =>
    have hct : c ≠ t := fun hc => h (hc ▸ List.mem_cons_self c cs)
    have hcs : t ∉ cs := fun hm => h (List.mem_cons_of_mem c hm)
    simp [splitOnFirst, hct, ih hcs]

lemma splitOnFirst_eq_some {t : Char} {x y : List Char} (h : t ∉ x) :
    splitOnFirst t (x ++ t :: y) = (x, some y) := by
  induction x with
  | nil => simp [splitOnFirst]
  | cons c cs ih =>
    have hct : c ≠ t := fun hc => h (hc ▸ List.mem_cons_self c cs)
    have hcs : t ∉ cs := fun hm => h (List.mem_cons_of_mem c hm)
    simp [splitOnFirst, hct, ih hcs]

lemma splitOnFirst_none_inv {t : Char} {s a : List Char}
    (h : splitOnFirst t s = (a, none)) : s = a ∧ t ∉ a := by
  induction s generalizing a with
  | nil =>
    simp only [splitOnFirst, Prod.mk.injEq, and_true] at h
    subst h
    exact ⟨rfl, by simp⟩
  | cons c cs ih =>
    by_cases hct : c = t
    · simp [splitOnFirst, hct] at h
    · simp only [splitOnFirst, if_neg hct] at h
      rcases hr : splitOnFirst t cs with ⟨a1, o1⟩
      rw [hr] at h
      cases h
      obtain ⟨h1, h2⟩ := ih hr
      subst h1
      exact ⟨rfl, by simp [hct, h2, Ne.symm]⟩

lemma splitOnFirst_some_inv {t : Char} {s a b : List Char}
    (h : splitOnFirst t s = (a, some b)) : s = a ++ t :: b ∧ t ∉ a := by
  induction s generalizing a with
  | nil => simp [splitOnFirst] at h
  | cons c cs ih =>
    by_cases hct : c = t
    · subst hct
      simp only [splitOnFirst, Prod.mk.injEq, Option.some.injEq] at h
      obtain ⟨h1, h2⟩ := h
      exact ⟨rfl, by simp⟩
    · simp only [splitOnFirst, if_neg hct] at h
      rcases hr : splitOnFirst t cs with ⟨a1, o1⟩
      rw [hr] at h
      cases o1 with
      | none => simp at h
      | some b1 =>
        simp only [Prod.mk.injEq, Option.some.injEq] at h
        obtain ⟨h1, h2⟩ := h
        subst h2
        rw [← h1]
        obtain ⟨h3, h4⟩ := ih hr
        subst h3
        exact ⟨rfl, by simp [hct, h4, Ne.symm]⟩

lemma splitDots_ne_nil : ∀ s : List Char, splitDots s ≠ []
  | [] => by simp [splitDots]
  | c :: cs => by
    by_cases hc : c = '.'
    · simp [splitDots, hc]
    · simp only [splitDots, if_neg hc]
      rcases hs : splitDots cs with _ | ⟨g, gs⟩
      · simp
      · simp

lemma joinDots_cons (g : List Char) (gs : List (List Char)) (h : gs ≠ []) :
    joinDots (g :: gs) = g ++ '.' :: joinDots gs := by
  cases gs with
  | nil => exact absurd rfl h
  | cons g2 gs2 => rfl

lemma joinDots_cons_cons (c : Char) (g : List Char) (gs : List (List Char)) :
    joinDots ((c :: g) :: gs) = c :: joinDots (g :: gs) := by
  cases gs with
  | nil => rfl
  | cons g2 gs2 => rfl

lemma joinDots_splitDots : ∀ s : List Char, joinDots (splitDots s) = s
  | [] => rfl
  | c :: cs => by
    by_cases hc : c = '.'
    · subst hc
      have hstep : splitDots ('.' :: cs) = [] :: splitDots cs := by
        simp [splitDots]
      rw [hstep, joinDots_cons _ _ (splitDots_ne_nil cs)]
      simp [joinDots_splitDots cs]
    · simp only [splitDots, if_neg hc]
      rcases hs : splitDots cs with _ | ⟨g, gs⟩
      · exact absurd hs (splitDots_ne_nil cs)
      · rw [joinDots_cons_cons]
        rw [← hs, joinDots_splitDots cs]

lemma splitDots_no_dot {g : List Char} (h : '.' ∉ g) : splitDots g = [g] := by
  induction g with
  | nil => rfl
  | cons c cs ih =>
    have hc : c ≠ '.' := fun hc => h (hc ▸ List.mem_cons_self c cs)
    have hcs : '.' ∉ cs := fun hm => h (List.mem_cons_of_mem c hm)
    show (if c = '.' then [] :: splitDots cs
          else match splitDots cs with
               | [] => [[c]]
               | g :: gs => (c :: g) :: gs) = [c :: cs]
    rw [if_neg hc, ih hcs]

lemma splitDots_append {g t : List Char} (h : '.' ∉ g) :
    splitDots (g ++ '.' :: t) = g :: splitDots t := by
  induction g with
  | nil => simp [splitDots]
  | cons c cs ih =>
    have hc : c ≠ '.' := fun hc => h (hc ▸ List.mem_cons_self c cs)
    have hcs : '.' ∉ cs := fun hm => h (List.mem_cons_of_mem c hm)
    show (if c = '.' then [] :: splitDots (cs ++ '.' :: t)
          else match splitDots (cs ++ '.' :: t) with
               | [] => [[c]]
               | g :: gs => (c :: g) :: gs) = (c :: cs) :: splitDots t
    rw [if_neg hc, ih hcs]

lemma splitDots_joinDots : ∀ {gs : List (List Char)}, gs ≠ [] →
    (∀ g ∈ gs, '.' ∉ g) → splitDots (joinDots gs) = gs
  | [], h, _ => absurd rfl h
  | [g], _, hd => by
    simp only [joinDots]
    exact splitDots_no_dot (hd g (by simp))
  | g :: g2 :: gs, _, hd => by
    rw [joinDots_cons _ _ (by simp)]
    rw [splitDots_append (hd g (by simp))]
    rw [splitDots_joinDots (by simp) (fun x hx => hd x (List.mem_cons_of_mem g hx))]

lemma joinDots_mem {c : Char} : ∀ {gs : List (List Char)},
    c ∈ joinDots gs → c = '.' ∨ ∃ g ∈ gs, c ∈ g
  | [], h => by simp [joinDots] at h
  | [g], h => by
    simp only [joinDots] at h
    exact Or.inr ⟨g, by simp, h⟩
  | g :: g2 :: gs, h => by
    rw [joinDots_cons _ _ (by simp)] at h
    rcases List.mem_append.mp h with h1 | h1
    · exact Or.inr ⟨g, by simp, h1⟩
    · rcases List.mem_cons.mp h1 with h2 | h2
      · exact Or.inl h2
      · rcases joinDots_mem h2 with h3 | ⟨g3, hg3, hc3⟩
        · exact Or.inl h3
        · exact Or.inr ⟨g3, List.mem_cons_of_mem g hg3, hc3⟩

end SplitLemmas

section DecimalLemmas

lemma natToChars_ne_nil (n : Nat) : natToChars n ≠ [] := by
  unfold natToChars
  split_ifs with h
  · simp
  · simp [Nat.digits_ne_nil_iff_ne_zero.mpr h]

lemma natToChars_all_digits (n : Nat) :
    (natToChars n).all isDigitC = true := by
  unfold natToChars
  split_ifs with h
  · decide
  · rw [List.all_eq_true]
    intro c hc
    rw [List.mem_reverse, List.mem_map] at hc
    obtain ⟨d, hd, rfl⟩ := hc
    exact digitCh_isDigit (Nat.digits_lt_base (by norm_num) hd)

lemma natToChars_head {n : Nat} (h : (natToChars n).head? = some '0') :
    natToChars n = ['0'] := by
  by_cases hn : n = 0
  · simp [natToChars, hn]
  · exfalso
    unfold natToChars at h
    rw [if_neg hn] at h
    rw [List.head?_reverse, List.getLast?_map] at h
    have hne : Nat.digits 10 n ≠ [] := Nat.digits_ne_nil_iff_ne_zero.mpr hn
    rw [List.getLast?_eq_getLast _ hne] at h
    simp only [Option.map_some', Option.some.injEq] at h
    have hlast := Nat.getLast_digit_ne_zero 10 hn
    have hlt : (Nat.digits 10 n).getLast hne < 10 :=
      Nat.digits_lt_base (by norm_num) (List.getLast_mem hne)
    exact hlast ((digitCh_eq_zero hlt).mp h)

lemma charsToNat_natToChars (n : Nat) : charsToNat (natToChars n) = n := by
  by_cases hn : n = 0
  · subst hn; decide
  · unfold natToChars
    rw [if_neg hn]
    unfold charsToNat
    rw [List.map_reverse, List.reverse_reverse, List.map_map]
    have hmap : (Nat.digits 10 n).map (charVal ∘ digitCh) = Nat.digits 10 n := by
      apply List.map_congr_left ?_ |>.trans (List.map_id _)
      intro d hd
      exact digitCh_val (Nat.digits_lt_base (by norm_num) hd)
    rw [hmap, Nat.ofDigits_digits]

lemma parseNat_natToChars (n : Nat) : parseNat (natToChars n) = some n := by
  unfold parseNat
  have h1 : (!(natToChars n).isEmpty) = true := by
    simp [List.isEmpty_iff, natToChars_ne_nil n]
  have h2 := natToChars_all_digits n
  have h3 : ((natToChars n).head? != some '0' || natToChars n == ['0']) = true := by
    by_cases hh : (natToChars n).head? = some '0'
    · simp [natToChars_head hh]
    · simp [hh]
  rw [h1, h2, h3]
  simp [charsToNat_natToChars n]

lemma parseNat_inv {s : List Char} {n : Nat} (h : parseNat s = some n) :
    natToChars n = s ∧ s.all isDigitC = true := by
  unfold parseNat at h
  by_cases hc : (!s.isEmpty && s.all isDigitC &&
      (s.head? != some '0' || s == ['0'])) = true
  · rw [if_pos hc] at h
    simp only [Option.some.injEq] at h
    subst h
    simp only [Bool.and_eq_true, Bool.or_eq_true, bne_iff_ne, ne_eq, beq_iff_eq,
      Bool.not_eq_true'] at hc
    obtain ⟨⟨hne, hdig⟩, hcanon⟩ := hc
    refine ⟨?_, hdig⟩
    by_cases h0 : s = ['0']
    · subst h0; decide
    · have hhead : s.head? ≠ some '0' := by
        rcases hcanon with hc1 | hc1
        · exact hc1
        · exact absurd hc1 h0
      rcases s with _ | ⟨c0, cs⟩
      · simp at hne
      · have hc0 : c0 ≠ '0' := fun hq => hhead (by simp [hq])
        have hc0d : isDigitC c0 = true := by
          rw [List.all_eq_true] at hdig
          exact hdig c0 (by simp)
        have hlt : ∀ l ∈ ((c0 :: cs).map charVal).reverse, l < 10 := by
          intro l hl
          rw [List.mem_reverse, List.mem_map] at hl
          obtain ⟨c, hcm, rfl⟩ := hl
          rw [List.all_eq_true] at hdig
          exact charVal_lt (hdig c hcm)
        have hLne : ((c0 :: cs).map charVal).reverse ≠ [] := by simp
        have hlast : ∀ hh : ((c0 :: cs).map charVal).reverse ≠ [],
            (((c0 :: cs).map charVal).reverse).getLast hh ≠ 0 := by
          intro hh
          have h5 := List.getLast?_eq_getLast _ hh
          rw [List.getLast?_reverse, List.head?_map] at h5
          simp only [List.head?_cons, Option.map_some', Option.some.injEq] at h5
          rw [← h5]
          exact charVal_ne_zero hc0d hc0
        have hdig10 : Nat.digits 10 (charsToNat (c0 :: cs)) =
            ((c0 :: cs).map charVal).reverse := by
          unfold charsToNat
          exact Nat.digits_ofDigits 10 (by norm_num) _ hlt hlast
        have hn0 : charsToNat (c0 :: cs) ≠ 0 := by
          rw [← Nat.digits_ne_nil_iff_ne_zero (b := 10), hdig10]
          exact hLne
        unfold natToChars
        rw [if_neg hn0, hdig10, List.map_reverse, List.reverse_reverse,
          List.map_map]
        apply List.map_congr_left ?_ |>.trans (List.map_id _)
        intro c hcm
        rw [List.all_eq_true] at hdig
        exact digitCh_charVal (hdig c hcm)
  · rw [if_neg hc] at h
    cases h

end DecimalLemmas

section IdsLemmas

lemma validIdGroup_parts {az : Bool} {g : List Char}
    (h : validIdGroup az g = true) :
    g ≠ [] ∧ ∀ c ∈ g, isIdChar c = true := by
  simp only [validIdGroup, Bool.and_eq_true] at h
  obtain ⟨⟨h1, h2⟩, _⟩ := h
  refine ⟨by simpa [List.isEmpty_iff] using h1, ?_⟩
  rw [List.all_eq_true] at h2
  exact h2

lemma validIdGroup_no_dot {az : Bool} {g : List Char}
    (h : validIdGroup az g = true) : '.' ∉ g := by
  intro hm
  exact absurd rfl ((idChar_ne_seps ((validIdGroup_parts h).2 '.' hm)).1)

lemma data_mk_map (gs : List (List Char)) :
    (gs.map (fun g => String.mk g)).map String.data = gs := by
  rw [List.map_map]
  exact (List.map_congr_left (fun g _ => rfl)).trans (List.map_id _)

lemma mk_data_map (ids : List Ident) :
    (ids.map String.data).map (fun g => String.mk g) = ids := by
  rw [List.map_map]
  exact (List.map_congr_left (fun i _ => rfl)).trans (List.map_id _)

lemma parseIds_inv {az : Bool} {p : List Char} {ids : List Ident}
    (h : parseIds az p = some ids) :
    ids ≠ [] ∧ joinDots (ids.map String.data) = p ∧
      ids.all (validId az) = true := by
  unfold parseIds at h
  split_ifs at h with h1 h2
  simp only [Option.some.injEq] at h
  subst h
  refine ⟨by simp [splitDots_ne_nil p], ?_, ?_⟩
  · rw [data_mk_map]
    exact joinDots_splitDots p
  · rw [List.all_eq_true]
    intro x hx
    rw [List.mem_map] at hx
    obtain ⟨g, hg, rfl⟩ := hx
    rw [List.all_eq_true] at h2
    exact h2 g hg

lemma parseIds_format {az : Bool} {ids : List Ident} (hne : ids ≠ [])
    (hval : ids.all (validId az) = true) :
    parseIds az (joinDots (ids.map String.data)) = some ids := by
  rw [List.all_eq_true] at hval
  have hgne : ∀ g ∈ ids.map String.data, g ≠ [] := by
    intro g hg
    rw [List.mem_map] at hg
    obtain ⟨i, hi, rfl⟩ := hg
    exact (validIdGroup_parts (hval i hi)).1
  have hgdot : ∀ g ∈ ids.map String.data, '.' ∉ g := by
    intro g hg
    rw [List.mem_map] at hg
    obtain ⟨i, hi, rfl⟩ := hg
    exact validIdGroup_no_dot (hval i hi)
  have hmapne : ids.map String.data ≠ [] := by simpa using hne
  have hsplit : splitDots (joinDots (ids.map String.data)) = ids.map String.data :=
    splitDots_joinDots hmapne hgdot
  have hpne : (joinDots (ids.map String.data)).isEmpty = false := by
    rcases ids with _ | ⟨i, rest⟩
    · exact absurd rfl hne
    · rcases rest with _ | ⟨j, rest2⟩
      · rcases hd : i.data with _ | ⟨c0, cs⟩
        · exact absurd hd (validIdGroup_parts (hval i (by simp))).1
        · simp [joinDots, hd]
      · rw [List.map_cons, joinDots_cons _ _ (by simp)]
        rcases hd : i.data with _ | ⟨c0, cs⟩ <;> simp [hd]
  unfold parseIds
  rw [hpne, hsplit]
  have hall : (ids.map String.data).all (validIdGroup az) = true := by
    rw [List.all_eq_true]
    intro g hg
    rw [List.mem_map] at hg
    obtain ⟨i, hi, rfl⟩ := hg
    exact hval i hi
  rw [hall]
  simp only [Bool.false_eq_true, if_false, if_true]
  exact congrArg some (mk_data_map ids)

end IdsLemmas

section RoundTripHelpers

lemma natToChars_mem_digit {c : Char} {n : Nat} (h : c ∈ natToChars n) :
    isDigitC c = true := by
  have hall := natToChars_all_digits n
  rw [List.all_eq_true] at hall
  exact hall c h

lemma natToChars_no_dot (n : Nat) : '.' ∉ natToChars n := by
  intro h
  exact absurd (natToChars_mem_digit h) (by decide)

lemma numCore_mem {c : Char} {x y z : Nat}
    (h : c ∈ natToChars x ++ '.' :: (natToChars y ++ '.' :: natToChars z)) :
    isDigitC c = true ∨ c = '.' := by
  rcases List.mem_append.mp h with h1 | h1
  · exact Or.inl (natToChars_mem_digit h1)
  · rcases List.mem_cons.mp h1 with h2 | h2
    · exact Or.inr h2
    · rcases List.mem_append.mp h2 with h3 | h3
      · exact Or.inl (natToChars_mem_digit h3)
      · rcases List.mem_cons.mp h3 with h4 | h4
        · exact Or.inr h4
        · exact Or.inl (natToChars_mem_digit h4)

lemma numCore_no_plus (x y z : Nat) :
    '+' ∉ natToChars x ++ '.' :: (natToChars y ++ '.' :: natToChars z) := by
  intro h
  rcases numCore_mem h with h1 | h1
  · exact absurd h1 (by decide)
  · exact absurd h1 (by decide)

lemma numCore_no_minus (x y z : Nat) :
    '-' ∉ natToChars x ++ '.' :: (natToChars y ++ '.' :: natToChars z) := by
  intro h
  rcases numCore_mem h with h1 | h1
  · exact absurd h1 (by decide)
  · exact absurd h1 (by decide)

lemma numCore_splitDots (x y z : Nat) :
    splitDots (natToChars x ++ '.' :: (natToChars y ++ '.' :: natToChars z)) =
      [natToChars x, natToChars y, natToChars z] := by
  rw [splitDots_append (natToChars_no_dot x),
    splitDots_append (natToChars_no_dot y),
    splitDots_no_dot (natToChars_no_dot z)]

lemma idsJoin_chars {az : Bool} {ids : List Ident}
    (hval : ids.all (validId az) = true) :
    ∀ c ∈ joinDots (ids.map String.data), isIdChar c = true ∨ c = '.' := by
  intro c hc
  rcases joinDots_mem hc with h1 | ⟨g, hg, hcg⟩
  · exact Or.inr h1
  · rw [List.mem_map] at hg
    obtain ⟨i, hi, rfl⟩ := hg
    rw [List.all_eq_true] at hval
    exact Or.inl ((validIdGroup_parts (hval i hi)).2 c hcg)

lemma preSeg_no_plus {az : Bool} {ids : List Ident}
    (hval : ids.all (validId az) = true) :
    '+' ∉ '-' :: joinDots (ids.map String.data) := by
  intro h
  rcases List.mem_cons.mp h with h1 | h1
  · exact absurd h1 (by decide)
  · rcases idsJoin_chars hval '+' h1 with h2 | h2
    · exact absurd h2 (by decide)
    · exact absurd h2 (by decide)

lemma parseVersionChars_split {s corePre nums : List Char}
    {obld opre : Option (List Char)}
    (h1 : splitOnFirst '+' s = (corePre, obld))
    (h2 : splitOnFirst '-' corePre = (nums, opre)) :
    parseVersionChars s = parseCore nums opre obld := by
  have hmid : parseVersionChars s =
      match splitOnFirst '-' corePre with
      | (nums2, opre2) => parseCore nums2 opre2 obld := by
    unfold parseVersionChars
    rw [h1]
  rw [hmid, h2]

lemma parseCore_success {nums a b c : List Char} {ma mi pa : Nat}
    {opre obld : Option (List Char)} {pids bids : List Ident}
    (h3 : splitDots nums = [a, b, c])
    (ha : parseNat a = some ma) (hb : parseNat b = some mi)
    (hc : parseNat c = some pa)
    (hp : parseSection false opre = some pids)
    (hq : parseSection true obld = some bids) :
    parseCore nums opre obld =
      some ⟨ma, some mi, some pa, some pids, some bids, false⟩ := by
  simp only [parseCore, h3, ha, hb, hc, hp, hq]

lemma parseCore_inv {nums : List Char} {opre obld : Option (List Char)}
    {w : Version} (h : parseCore nums opre obld = some w) :
    ∃ a b c ma mi pa pids bids,
      splitDots nums = [a, b, c] ∧ parseNat a = some ma ∧
      parseNat b = some mi ∧ parseNat c = some pa ∧
      parseSection false opre = some pids ∧
      parseSection true obld = some bids ∧
      w = ⟨ma, some mi, some pa, some pids, some bids, false⟩ := by
  unfold parseCore at h
  rcases h3 : splitDots nums with _ | ⟨a, _ | ⟨b, _ | ⟨c, _ | ⟨d, tl⟩⟩⟩⟩ <;>
    simp only [h3] at h
  · cases h
  · cases h
  · cases h
  · rcases ha : parseNat a with _ | ma <;> simp only [ha] at h
    · cases h
    · rcases hb : parseNat b with _ | mi <;> simp only [hb] at h
      · cases h
      · rcases hc : parseNat c with _ | pa <;> simp only [hc] at h
        · cases h
        · rcases hp : parseSection false opre with _ | pids <;> simp only [hp] at h
          · cases h
          · rcases hq : parseSection true obld with _ | bids <;> simp only [hq] at h
            · cases h
            · simp only [Option.some.injEq] at h
              exact ⟨a, b, c, ma, mi, pa, pids, bids, rfl, ha, hb, hc, rfl,
                rfl, h.symm⟩
  · cases h

end RoundTripHelpers

section RoundTrip

lemma parse_of_format {ma mi pa : Nat} {pre bld : List Ident}
    (hpre : pre.all (validId false) = true)
    (hbld : bld.all (validId true) = true) :
    parseVersionChars
        (versionStr ⟨ma, some mi, some pa, some pre, some bld, false⟩) =
      some ⟨ma, some mi, some pa, some pre, some bld, false⟩ := by
  by_cases hpe : pre = [] <;> by_cases hbe : bld = []
  · subst hpe; subst hbe
    have hS : versionStr ⟨ma, some mi, some pa, some [], some [], false⟩ =
        natToChars ma ++ '.' :: (natToChars mi ++ '.' :: natToChars pa) := by
      simp [versionStr, fieldTruthy, List.append_assoc]
    rw [hS, parseVersionChars_split
      (splitOnFirst_eq_none (numCore_no_plus ma mi pa))
      (splitOnFirst_eq_none (numCore_no_minus ma mi pa))]
    exact parseCore_success (numCore_splitDots ma mi pa)
      (parseNat_natToChars ma) (parseNat_natToChars mi)
      (parseNat_natToChars pa) rfl rfl
  · subst hpe
    have hS : versionStr ⟨ma, some mi, some pa, some [], some bld, false⟩ =
        (natToChars ma ++ '.' :: (natToChars mi ++ '.' :: natToChars pa)) ++
          '+' :: joinDots (bld.map String.data) := by
      simp [versionStr, fieldTruthy, List.isEmpty_iff, hbe, List.append_assoc]
    rw [hS, parseVersionChars_split
      (splitOnFirst_eq_some (numCore_no_plus ma mi pa))
      (splitOnFirst_eq_none (numCore_no_minus ma mi pa))]
    exact parseCore_success (numCore_splitDots ma mi pa)
      (parseNat_natToChars ma) (parseNat_natToChars mi)
      (parseNat_natToChars pa) rfl (parseIds_format hbe hbld)
  · subst hbe
    have hS : versionStr ⟨ma, some mi, some pa, some pre, some [], false⟩ =
        (natToChars ma ++ '.' :: (natToChars mi ++ '.' :: natToChars pa)) ++
          '-' :: joinDots (pre.map String.data) := by
      simp [versionStr, fieldTruthy, List.isEmpty_iff, hpe, List.append_assoc]
    have hplus : '+' ∉
        (natToChars ma ++ '.' :: (natToChars mi ++ '.' :: natToChars pa)) ++
          '-' :: joinDots (pre.map String.data) := by
      intro hm
      rcases List.mem_append.mp hm with hm1 | hm1
      · exact numCore_no_plus ma mi pa hm1
      · exact preSeg_no_plus hpre hm1
    rw [hS, parseVersionChars_split (splitOnFirst_eq_none hplus)
      (splitOnFirst_eq_some (numCore_no_minus ma mi pa))]
    exact parseCore_success (numCore_splitDots ma mi pa)
      (parseNat_natToChars ma) (parseNat_natToChars mi)
      (parseNat_natToChars pa) (parseIds_format hpe hpre) rfl
  · have hS : versionStr ⟨ma, some mi, some pa, some pre, some bld, false⟩ =
        ((natToChars ma ++ '.' :: (natToChars mi ++ '.' :: natToChars pa)) ++
          '-' :: joinDots (pre.map String.data)) ++
          '+' :: joinDots (bld.map String.data) := by
      simp [versionStr, fieldTruthy, List.isEmpty_iff, hpe, hbe,
        List.append_assoc]
    have hplus : '+' ∉
        (natToChars ma ++ '.' :: (natToChars mi ++ '.' :: natToChars pa)) ++
          '-' :: joinDots (pre.map String.data) := by
      intro hm
      rcases List.mem_append.mp hm with hm1 | hm1
      · exact numCore_no_plus ma mi pa hm1
      · exact preSeg_no_plus hpre hm1
    rw [hS, parseVersionChars_split (splitOnFirst_eq_some hplus)
      (splitOnFirst_eq_some (numCore_no_minus ma mi pa))]
    exact parseCore_success (numCore_splitDots ma mi pa)
      (parseNat_natToChars ma) (parseNat_natToChars mi)
      (parseNat_natToChars pa) (parseIds_format hpe hpre)
      (parseIds_format hbe hbld)

lemma format_of_parse {s : List Char} {w : Version}
    (h : parseVersionChars s = some w) : versionStr w = s := by
  rcases h1 : splitOnFirst '+' s with ⟨corePre, obld⟩
  rcases h2 : splitOnFirst '-' corePre with ⟨nums, opre⟩
  rw [parseVersionChars_split h1 h2] at h
  obtain ⟨a, b, c, ma, mi, pa, pids, bids, h3, ha, hb, hc, hp, hq, rfl⟩ :=
    parseCore_inv h
  obtain ⟨hna, hda⟩ := parseNat_inv ha
  obtain ⟨hnb, hdb⟩ := parseNat_inv hb
  obtain ⟨hnc, hdc⟩ := parseNat_inv hc
  have hnums : a ++ '.' :: (b ++ '.' :: c) = nums := by
    have hj := joinDots_splitDots nums
    rw [h3] at hj
    simpa [joinDots] using hj
  have hs : s = corePre ++ (match obld with
      | none => []
      | some q => '+' :: q) := by
    rcases obld with _ | q
    · simp [(splitOnFirst_none_inv h1).1]
    · simp [(splitOnFirst_some_inv h1).1]
  have hcore : corePre = nums ++ (match opre with
      | none => []
      | some p => '-' :: p) := by
    rcases opre with _ | p
    · simp [(splitOnFirst_none_inv h2).1]
    · simp [(splitOnFirst_some_inv h2).1]
  rcases opre with _ | p <;> rcases obld with _ | q
  · have hpids : pids = [] := by
      have := hp
      simp only [parseSection, Option.some.injEq] at this
      exact this.symm
    have hbids : bids = [] := by
      have := hq
      simp only [parseSection, Option.some.injEq] at this
      exact this.symm
    subst hpids hbids
    simp only [hs, hcore]
    simp [versionStr, fieldTruthy, hna, hnb, hnc, ← hnums, List.append_assoc]
  · have hpids : pids = [] := by
      have := hp
      simp only [parseSection, Option.some.injEq] at this
      exact this.symm
    obtain ⟨hbne, hbj, hbval⟩ := parseIds_inv (hq : parseIds true q = some bids)
    subst hpids
    simp only [hs, hcore]
    simp [versionStr, fieldTruthy, hna, hnb, hnc, ← hnums, ← hbj,
      List.isEmpty_iff, hbne, List.append_assoc]
  · obtain ⟨hpne, hpj, hpval⟩ := parseIds_inv (hp : parseIds false p = some pids)
    have hbids : bids = [] := by
      have := hq
      simp only [parseSection, Option.some.injEq] at this
      exact this.symm
    subst hbids
    simp only [hs, hcore]
    simp [versionStr, fieldTruthy, hna, hnb, hnc, ← hnums, ← hpj,
      List.isEmpty_iff, hpne, List.append_assoc]
  · obtain ⟨hpne, hpj, hpval⟩ := parseIds_inv (hp : parseIds false p = some pids)
    obtain ⟨hbne, hbj, hbval⟩ := parseIds_inv (hq : parseIds true q = some bids)
    simp only [hs, hcore]
    simp [versionStr, fieldTruthy, hna, hnb, hnc, ← hnums, ← hpj, ← hbj,
      List.isEmpty_iff, hpne, hbne, List.append_assoc]

end RoundTrip

section Claim9

/-- C9: parsing and formatting are mutually inverse: for every valid
(strict grammar, non-partial) Version `v`, parsing the formatted string of
`v` returns exactly `v`; and for every string `s` the strict parser
accepts, formatting the parsed Version reproduces `s` character for
character. -/
theorem C9_parse_format_roundtrip (v w : Version) (s : List Char)
    (hval : ValidVersion v = true) (hparse : parseVersionChars s = some w) :
    parseVersionChars (versionStr v) = some v ∧ versionStr w = s := by
  refine ⟨?_, format_of_parse hparse⟩
  obtain ⟨ma, omi, opa, opre, obld, pt⟩ := v
  rcases omi with _ | mi
  · exact absurd hval (by simp [ValidVersion])
  rcases opa with _ | pa
  · exact absurd hval (by simp [ValidVersion])
  rcases opre with _ | pre
  · exact absurd hval (by simp [ValidVersion])
  rcases obld with _ | bld
  · exact absurd hval (by simp [ValidVersion])
  rcases pt
  case true => exact absurd hval (by simp [ValidVersion])
  case false =>
    simp only [ValidVersion, Bool.and_eq_true] at hval
    exact parse_of_format hval.1.2 hval.2

/-- Witness for C9 at `v = 1.2.3-rc.1+b05` and `s = "9.8.7-x+y"`. -/
theorem C9_parse_format_roundtrip_witness :
    ValidVersion ⟨1, some 2, some 3, some ["rc", "1"], some ["b05"], false⟩ = true ∧
    parseVersionChars ("9.8.7-x+y".data) =
      some ⟨9, some 8, some 7, some ["x"], some ["y"], false⟩ ∧
    (parseVersionChars
        (versionStr ⟨1, some 2, some 3, some ["rc", "1"], some ["b05"], false⟩) =
      some ⟨1, some 2, some 3, some ["rc", "1"], some ["b05"], false⟩ ∧
     versionStr ⟨9, some 8, some 7, some ["x"], some ["y"], false⟩ =
      "9.8.7-x+y".data) :=
  ⟨by decide, by decide,
    C9_parse_format_roundtrip
      ⟨1, some 2, some 3, some ["rc", "1"], some ["b05"], false⟩
      ⟨9, some 8, some 7, some ["x"], some ["y"], false⟩
      ("9.8.7-x+y".data) (by decide) (by decide)⟩

end Claim9

section Resolver

/-- Package names. -/
abbrev Pkg := String

/-- The exceptions the resolver can raise: `NotSolved`, plus the
`TypeError` of the zero-argument `_handle_not_solved()` call on line 315
of `edge.py`, the `KeyError` of a missing dictionary key, the
`AssertionError` of the `assert` on line 309, and fuel exhaustion of the
interpreter (never reached at sufficient fuel). -/
inductive PyErr
  | notSolved | typeError | keyError | assertError | outOfFuel
deriving DecidableEq, Repr

/-- Association-list lookup (Python `d[k]` read). -/
def lookupA [DecidableEq κ] : List (κ × α) → κ → Option α
  | [], _ => none
  | (k2, v) :: rest, k => if k2 = k then some v else lookupA rest k

/-- Association-list write (Python `d[k] = v`: update or insert). -/
def upsertA [DecidableEq κ] : List (κ × α) → κ → α → List (κ × α)
  | [], k, v => [(k, v)]
  | (k2, v2) :: rest, k, v =>
    if k2 = k then (k, v) :: rest else (k2, v2) :: upsertA rest k v

/-- The input `pkgsVersionsDeps`: package → version → dependency →
candidate versions (ascending), as insertion-ordered association lists
mirroring dict/SortedDict iteration order. -/
abbrev SolveInput := List (Pkg × List (Version × List (Pkg × List Version)))

/-- The resolver `State`: `pkgsLocked` and `failedVersions`, plus a ghost
event log recording every speculative lock assignment, most recent
first.  The log has no effect on control flow. -/
structure SolveSt where
  locked : List (Pkg × Option Version)
  failed : List (Pkg × List Version)
  log : List (Pkg × Version)
deriving DecidableEq, Repr

/-- The failure cache of one package (empty when the package is absent,
which only happens for inputs on which Python raises `KeyError` before
consulting the cache). -/
def failedOf (st : SolveSt) (p : Pkg) : List Version :=
  (lookupA st.failed p).getD []

/-- A speculative lock `self.pkgsLocked[p] = v`, recorded in the log. -/
def lockPkg (st : SolveSt) (p : Pkg) (v : Version) : SolveSt :=
  ⟨upsertA st.locked p (some v), st.failed, (p, v) :: st.log⟩

/-- An unlock `self.pkgsLocked[p] = None`. -/
def unlockPkg (st : SolveSt) (p : Pkg) : SolveSt :=
  ⟨upsertA st.locked p none, st.failed, st.log⟩

/-- The rollback loop `for dep in lockedHere: self.pkgsLocked[dep] = None`. -/
def unlockAll (st : SolveSt) (ps : List Pkg) : SolveSt :=
  ps.foldl unlockPkg st

/-- `State._handle_not_solved(pkg, version)`: unlock the package, then add
the version to its failure cache (`KeyError` when the package has no cache
entry; the unlock has already happened then, as in Python). -/
def handleNotSolved (st : SolveSt) (p : Pkg) (v : Version) :
    SolveSt × Option PyErr :=
  match lookupA st.failed p with
  | none => (⟨upsertA st.locked p none, st.failed, st.log⟩, some .keyError)
  | some fs =>
    (⟨upsertA st.locked p none, upsertA st.failed p (fs.insert v), st.log⟩,
      none)

/-- The control points of the two mutually recursive traversal methods:
entry of `attempt_pkg_traversal`, its candidate loop, entry of
`attempt_pkgVersion_traversal`, its dependency loop (with the `lockedHere`
list), and the per-dependency candidate loop. -/
inductive Call
  | pkg (p : Pkg)
  | pkgLoop (p : Pkg) (versions : List Version)
  | pkgVersion (p : Pkg) (v : Version)
  | deps (ds : List (Pkg × List Version)) (lockedHere : List Pkg)
  | depVers (dep : Pkg) (dvs : List Version)
      (restDeps : List (Pkg × List Version)) (lockedHere : List Pkg)

/-- The fuel-indexed interpreter of `State.attempt_pkg_traversal` /
`State.attempt_pkgVersion_traversal` (`edge.py` lines 298-371).  Success
is `(state, none)`; a raised exception is `(state, some err)` with the
state at the moment of the raise.  Notable translated details: the
candidate loop of `attempt_pkg_traversal` turns a `NotSolved` of its
version traversal into a `TypeError`, because line 315 calls
`_handle_not_solved()` without its two required arguments; the
locked-but-incompatible branch of the dependency loop raises `NotSolved`
without unlocking `lockedHere`; only the exhaustion (`for...else`) branch
rolls `lockedHere` back. -/
def run : Nat → SolveInput → SolveSt → Call → SolveSt × Option PyErr
  | 0, _, st, _ => (st, some .outOfFuel)
  | Nat.succ fuel, inp, st, .pkg pkg =>
    match lookupA st.locked pkg with
    | none => (st, some .keyError)
    | some (some lockedVersion) => run fuel inp st (.pkgVersion pkg lockedVersion)
    | some none =>
      match lookupA inp pkg with
      | none => (st, some .keyError)
      | some versionsDeps => run fuel inp st (.pkgLoop pkg (versionsDeps.map (·.1)))
  | Nat.succ fuel, inp, st, .pkgLoop pkg vs =>
    match vs with
    | [] => (st, some .notSolved)
    | v :: rest =>
      match lookupA st.failed pkg with
      | none => (st, some .keyError)
      | some fs =>
        if v ∈ fs then run fuel inp st (.pkgLoop pkg rest)
        else
          match lookupA st.locked pkg with
          | none => (st, some .keyError)
          | some (some _) => (st, some .assertError)
          | some none =>
            match run fuel inp (lockPkg st pkg v) (.pkgVersion pkg v) with
            | (st2, none) => (st2, none)
            | (st2, some PyErr.notSolved) => (st2, some .typeError)
            | (st2, some e) => (st2, some e)
  | Nat.succ fuel, inp, st, .pkgVersion pkg ver =>
    match lookupA inp pkg with
    | none => (st, some .keyError)
    | some versionsDeps =>
      match lookupA versionsDeps ver with
      | none => (st, some .keyError)
      | some depsVersions => run fuel inp st (.deps depsVersions [])
  | Nat.succ fuel, inp, st, .deps ds lockedHere =>
    match ds with
    | [] => (st, none)
    | (dep, depVers) :: restDeps =>
      match lookupA st.locked dep with
      | none => (st, some .keyError)
      | some (some lockedDep) =>
        if lockedDep ∈ depVers then run fuel inp st (.deps restDeps lockedHere)
        else (st, some .notSolved)
      | some none => run fuel inp st (.depVers dep depVers.reverse restDeps lockedHere)
  | Nat.succ fuel, inp, st, .depVers dep dvs restDeps lockedHere =>
    match dvs with
    | [] => (unlockAll st lockedHere, some .notSolved)
    | dv :: rest =>
      match lookupA st.failed dep with
      | none => (st, some .keyError)
      | some fs =>
        if dv ∈ fs then run fuel inp st (.depVers dep rest restDeps lockedHere)
        else
          match run fuel inp (lockPkg st dep dv) (.pkg dep) with
          | (st2, none) => run fuel inp st2 (.deps restDeps (dep :: lockedHere))
          | (st2, some PyErr.notSolved) =>
            match handleNotSolved st2 dep dv with
            | (st3, none) => run fuel inp st3 (.depVers dep rest restDeps lockedHere)
            | (st3, some e) => (st3, some e)
          | (st2, some e) => (st2, some e)

/-- The `attempt_pkg_traversal` entry point. -/
def attempt_pkg_traversal (fuel : Nat) (inp : SolveInput) (st : SolveSt)
    (pkg : Pkg) : SolveSt × Option PyErr :=
  run fuel inp st (.pkg pkg)

/-- The `attempt_pkgVersion_traversal` entry point. -/
def attempt_pkgVersion_traversal (fuel : Nat) (inp : SolveInput)
    (st : SolveSt) (pkg : Pkg) (ver : Version) : SolveSt × Option PyErr :=
  run fuel inp st (.pkgVersion pkg ver)

/-- The `State.__init__` state: every package of the input unlocked, every
failure cache empty. -/
def initState (inp : SolveInput) : SolveSt :=
  ⟨inp.map (fun e => (e.1, none)), inp.map (fun e => (e.1, [])), []⟩

/-- The module-level `solve(pkgsVersionsDeps, root)`: fresh state, attempt
the root; Python returns `state.pkgsLocked`, available as `.1.locked`. -/
def solve (fuel : Nat) (inp : SolveInput) (root : Pkg) :
    SolveSt × Option PyErr :=
  attempt_pkg_traversal fuel inp (initState inp) root

/-- The `VersionReq.match` method of `base.py` (lines 455-487).  The
`KIND_SHORTEQ`/`KIND_EMPTY` kinds (resolved to `==` during parsing) and a
missing version fall into error branches in Python (`ValueError` /
`AttributeError`); both are modelled as a non-match and are unreachable
for parsed requirements. -/
def reqMatch (r : VersionReq) (v : Version) : Bool :=
  match r.kind, r.version with
  | .any, _ => true
  | .lt, some rv => pyLt v rv
  | .lte, some rv => pyLe v rv
  | .eq, some rv => pyEq v rv
  | .gte, some rv => pyGe v rv
  | .gt, some rv => pyGt v rv
  | .neq, some rv => pyNe v rv
  | .caret, some rv =>
    pyLe rv v && (match caretUpper rv with
      | some u => pyLt v u
      | none => false)
  | .tilde, some rv =>
    pyLe rv v && (match rv.next_minor with
      | some u => pyLt v u
      | none => false)
  | .compatible, some rv =>
    pyLe rv v && (match compatUpper rv with
      | some u => pyLt v u
      | none => false)
  | _, _ => false

/-- `version_matches_specs` of `edge.py`: all requirements must match. -/
def version_matches_specs (specs : List VersionReq) (v : Version) : Bool :=
  specs.all (fun r => reqMatch r v)

/-- `filter_by_specs` of `edge.py`: the versions satisfying all
requirements, in input order. -/
def filter_by_specs (specs : List VersionReq) (versions : List Version) :
    List Version :=
  versions.filter (version_matches_specs specs)

end Resolver

section Claim1

/-- B's published versions (ascending) in the end-to-end scenario. -/
def bVersions : List Version :=
  [Version.mk3 1 0 0, Version.mk3 1 1 0, Version.mk3 1 2 0]

/-- E's published versions (ascending) listed by the scenario. -/
def eVersions : List Version :=
  [Version.mk3 1 0 0, Version.mk3 1 3 0, Version.mk3 1 6 0, Version.mk3 1 9 0,
   Version.mk3 2 0 0, Version.mk3 2 3 0, Version.mk3 2 6 0, Version.mk3 2 9 0,
   Version.mk3 3 0 0]

/-- The end-to-end scenario input: A@2.3.0 requires B via `^1.0.0` and E
via `>=1.0.0,<3.0.0`; B@1.0.0 needs E `>=1.2.0,<2.0.0`, B@1.1.0 needs E
`>=1.0.0,<2.0.0`, B@1.2.0 needs E `>=1.5.0,<2.5.0`; E's versions have no
dependencies.  Candidate sets are built from these ranges by filtering
the published version lists through the requirements, exactly as
`filter_by_specs` does. -/
def scenarioInput : SolveInput :=
  [ ("pkgA", [(Version.mk3 2 3 0,
      [ ("pkgB", filter_by_specs [⟨.caret, some (Version.mk3 1 0 0)⟩] bVersions),
        ("pkgE", filter_by_specs
          [⟨.gte, some (Version.mk3 1 0 0)⟩, ⟨.lt, some (Version.mk3 3 0 0)⟩]
          eVersions) ])]),
    ("pkgB",
      [ (Version.mk3 1 0 0, [("pkgE", filter_by_specs
          [⟨.gte, some (Version.mk3 1 2 0)⟩, ⟨.lt, some (Version.mk3 2 0 0)⟩]
          eVersions)]),
        (Version.mk3 1 1 0, [("pkgE", filter_by_specs
          [⟨.gte, some (Version.mk3 1 0 0)⟩, ⟨.lt, some (Version.mk3 2 0 0)⟩]
          eVersions)]),
        (Version.mk3 1 2 0, [("pkgE", filter_by_specs
          [⟨.gte, some (Version.mk3 1 5 0)⟩, ⟨.lt, some (Version.mk3 2 5 0)⟩]
          eVersions)]) ]),
    ("pkgE", eVersions.map (fun v => (v, []))) ]

/-- Counterexample to C1 as stated: on the scenario input, `solve`
terminates successfully but locks E to 2.3.0 — the newest candidate of
B@1.2.0's range `[1.5.0, 2.5.0)` — not to 1.9.0 as the claim asserts
(B@1.2.0's E-candidates are 1.6.0, 1.9.0, 2.0.0, 2.3.0, and the
descending iteration tries 2.3.0 first, which succeeds). -/
theorem C1_counterexample :
    (solve 50 scenarioInput "pkgA").2 = none ∧
    lookupA (solve 50 scenarioInput "pkgA").1.locked "pkgE" =
      some (some (Version.mk3 2 3 0)) ∧
    Version.mk3 2 3 0 ≠ Version.mk3 1 9 0 := by
  refine ⟨by decide, by decide, by decide⟩

/-- C1 (amended): on the scenario input, `solve` terminates successfully
and returns the assignment A=2.3.0, B=1.2.0, E=2.3.0, with no
backtracking: every failure cache stays empty, and the only lock events
are E=2.3.0, B=1.2.0, A=2.3.0 (most recent first). -/
theorem C1_resolver_scenario :
    (solve 50 scenarioInput "pkgA").2 = none ∧
    (solve 50 scenarioInput "pkgA").1.locked =
      [("pkgA", some (Version.mk3 2 3 0)), ("pkgB", some (Version.mk3 1 2 0)),
       ("pkgE", some (Version.mk3 2 3 0))] ∧
    (solve 50 scenarioInput "pkgA").1.failed =
      [("pkgA", []), ("pkgB", []), ("pkgE", [])] ∧
    (solve 50 scenarioInput "pkgA").1.log =
      [("pkgE", Version.mk3 2 3 0), ("pkgB", Version.mk3 1 2 0),
       ("pkgA", Version.mk3 2 3 0)] := by
  refine ⟨by decide, by decide, by decide, by decide⟩

end Claim1

section Claim3

/-- A dependency graph exercising the locked-but-incompatible branch:
R@1.0.0 needs D (candidate 1.0.0) and P (candidate 1.0.0); P@1.0.0 needs
Q (candidate 1.0.0) and D at 2.0.0 only; D and Q have no dependencies. -/
def conflictInput : SolveInput :=
  [ ("pkgR", [(Version.mk3 1 0 0,
      [("pkgD", [Version.mk3 1 0 0]), ("pkgP", [Version.mk3 1 0 0])])]),
    ("pkgD", [(Version.mk3 1 0 0, []), (Version.mk3 2 0 0, [])]),
    ("pkgP", [(Version.mk3 1 0 0,
      [("pkgQ", [Version.mk3 1 0 0]), ("pkgD", [Version.mk3 2 0 0])])]),
    ("pkgQ", [(Version.mk3 1 0 0, [])]) ]

/-- The state of P@1.0.0's frame: D is locked at 1.0.0 (by R), P is
speculatively locked, Q is free. -/
def conflictFrameSt : SolveSt :=
  ⟨[("pkgR", some (Version.mk3 1 0 0)), ("pkgD", some (Version.mk3 1 0 0)),
    ("pkgP", some (Version.mk3 1 0 0)), ("pkgQ", none)],
   [("pkgR", []), ("pkgD", []), ("pkgP", []), ("pkgQ", [])], []⟩

/-- C3 (the code violates it): `attempt_pkgVersion_traversal(P, 1.0.0)`
first locks its dependency Q, then hits the locked-but-incompatible check
for D (locked at 1.0.0, candidates `[2.0.0]`) and raises `NotSolved`
without rolling `lockedHere` back — Q leaves the frame still locked.  In
the full run the escaped `NotSolved` then makes `attempt_pkg_traversal`
call `_handle_not_solved()` without its two required arguments, so
`solve` aborts with a `TypeError` (not `NotSolved`), with Q still locked
and R still speculatively locked. -/
theorem C3_notsolved_leaves_locks :
    (attempt_pkgVersion_traversal 40 conflictInput conflictFrameSt
        "pkgP" (Version.mk3 1 0 0)).2 = some .notSolved ∧
    lookupA (attempt_pkgVersion_traversal 40 conflictInput conflictFrameSt
        "pkgP" (Version.mk3 1 0 0)).1.locked "pkgQ" =
      some (some (Version.mk3 1 0 0)) ∧
    (solve 40 conflictInput "pkgR").2 = some .typeError ∧
    lookupA (solve 40 conflictInput "pkgR").1.locked "pkgQ" =
      some (some (Version.mk3 1 0 0)) ∧
    failedOf (solve 40 conflictInput "pkgR").1 "pkgP" = [Version.mk3 1 0 0] := by
  refine ⟨by decide, by decide, by decide, by decide, by decide⟩

end Claim3

section Claim5

/-- A root with two dependency-free versions, 1.0.0 and 2.0.0, stored in
ascending (SortedDict) order. -/
def twoVersionInput : SolveInput :=
  [("pkgR", [(Version.mk3 1 0 0, []), (Version.mk3 2 0 0, [])])]

/-- Counterexample to C5 as stated: both versions of R are trivially
satisfiable and 1.0.0 < 2.0.0, so a newest-first iteration would lock
2.0.0; the code locks 1.0.0, and the event log shows 2.0.0 was never even
attempted — `attempt_pkg_traversal` iterates the version map in stored
(ascending) order, not descending. -/
theorem C5_counterexample :
    pyLt (Version.mk3 1 0 0) (Version.mk3 2 0 0) = true ∧
    (solve 10 twoVersionInput "pkgR").2 = none ∧
    lookupA (solve 10 twoVersionInput "pkgR").1.locked "pkgR" =
      some (some (Version.mk3 1 0 0)) ∧
    (solve 10 twoVersionInput "pkgR").1.log = [("pkgR", Version.mk3 1 0 0)] ∧
    Version.mk3 1 0 0 ≠ Version.mk3 2 0 0 := by
  refine ⟨by decide, by decide, by decide, by decide, by decide⟩

end Claim5

section Invariant

lemma lookupA_upsertA_self [DecidableEq κ] (l : List (κ × α)) (k : κ) (v : α) :
    lookupA (upsertA l k v) k = some v := by
  induction l with
  | nil => simp [upsertA, lookupA]
  | cons e rest ih =>
    obtain ⟨k2, v2⟩ := e
    by_cases h : k2 = k
    · simp [upsertA, h, lookupA]
    · simp [upsertA, h, lookupA, ih]

lemma lookupA_upsertA_ne [DecidableEq κ] (l : List (κ × α)) {k k' : κ}
    (v : α) (h : k' ≠ k) : lookupA (upsertA l k v) k' = lookupA l k' := by
  induction l with
  | nil =>
    simp only [upsertA, lookupA]
    rw [if_neg (fun hq => h hq.symm)]
  | cons e rest ih =>
    obtain ⟨k2, v2⟩ := e
    by_cases h2 : k2 = k
    · subst h2
      simp only [upsertA, if_pos rfl, lookupA]
      rw [if_neg (fun hq => h hq.symm), if_neg (fun hq => h hq.symm)]
    · simp only [upsertA, if_neg h2, lookupA]
      by_cases h3 : k2 = k'
      · simp [h3]
      · simp [h3, ih]

/-- The monotonicity invariant of one resolver call: failure caches only
grow, the event log only gains new entries on top, and no new lock event
targets a version already failed at the start of the call. -/
def Invar (st st' : SolveSt) : Prop :=
  (∀ p v, v ∈ failedOf st p → v ∈ failedOf st' p) ∧
  ∃ evs, st'.log = evs ++ st.log ∧
    ∀ p v, v ∈ failedOf st p → (p, v) ∉ evs

lemma invar_refl (st : SolveSt) : Invar st st :=
  ⟨fun _ _ h => h, [], rfl, fun _ _ _ => by simp⟩

lemma invar_trans {s1 s2 s3 : SolveSt} (h1 : Invar s1 s2)
    (h2 : Invar s2 s3) : Invar s1 s3 := by
  obtain ⟨m1, evs1, hl1, he1⟩ := h1
  obtain ⟨m2, evs2, hl2, he2⟩ := h2
  refine ⟨fun p v hv => m2 p v (m1 p v hv), evs2 ++ evs1, ?_, ?_⟩
  · rw [hl2, hl1, List.append_assoc]
  · intro p v hv hm
    rcases List.mem_append.mp hm with hm1 | hm1
    · exact he2 p v (m1 p v hv) hm1
    · exact he1 p v hv hm1

lemma invar_lock {st : SolveSt} {p : Pkg} {v : Version}
    (h : v ∉ failedOf st p) : Invar st (lockPkg st p v) := by
  refine ⟨fun q w hw => hw, [(p, v)], rfl, ?_⟩
  intro q w hw hm
  simp only [List.mem_singleton, Prod.mk.injEq] at hm
  obtain ⟨rfl, rfl⟩ := hm
  exact h hw

lemma unlockAll_failed_log (ps : List Pkg) : ∀ st : SolveSt,
    (unlockAll st ps).failed = st.failed ∧ (unlockAll st ps).log = st.log := by
  induction ps with
  | nil => intro st; exact ⟨rfl, rfl⟩
  | cons p ps ih =>
    intro st
    have hstep : unlockAll st (p :: ps) = unlockAll (unlockPkg st p) ps := rfl
    rw [hstep]
    exact ih (unlockPkg st p)

lemma invar_unlockAll (st : SolveSt) (ps : List Pkg) :
    Invar st (unlockAll st ps) := by
  obtain ⟨hf, hl⟩ := unlockAll_failed_log ps st
  refine ⟨fun p v hv => ?_, [], by rw [hl]; simp, fun _ _ _ => by simp⟩
  unfold failedOf
  rw [hf]
  exact hv

lemma invar_handle (st : SolveSt) (p : Pkg) (v : Version) :
    Invar st (handleNotSolved st p v).1 := by
  unfold handleNotSolved
  rcases hf : lookupA st.failed p with _ | fs
  · exact ⟨fun q w hw => hw, [], rfl, fun _ _ _ => by simp⟩
  · refine ⟨?_, [], rfl, fun _ _ _ => by simp⟩
    intro q w hw
    unfold failedOf at hw ⊢
    by_cases hq : q = p
    · subst hq
      rw [hf] at hw
      simp only [lookupA_upsertA_self, Option.getD_some] at hw ⊢
      rw [List.mem_insert_iff]
      exact Or.inr hw
    · rw [lookupA_upsertA_ne _ _ hq]
      exact hw

/-- Every interpreter call satisfies the monotonicity invariant: failure
caches only grow, and no version already in a failure cache at the start
of the call is ever locked during it. -/
lemma run_invar : ∀ (fuel : Nat) (inp : SolveInput) (st : SolveSt) (c : Call),
    Invar st (run fuel inp st c).1 := by
  intro fuel
  induction fuel with
  | zero => intro inp st c; exact invar_refl st
  | succ fuel ih =>
    intro inp st c
    cases c with
    | pkg p =>
      simp only [run]
      rcases hl : lookupA st.locked p with _ | ov
      · exact invar_refl st
      · rcases ov with _ | lockedVersion
        · rcases hi : lookupA inp p with _ | vd
          · exact invar_refl st
          · exact ih inp st (.pkgLoop p (vd.map (·.1)))
        · exact ih inp st (.pkgVersion p lockedVersion)
    | pkgLoop p vs =>
      simp only [run]
      rcases vs with _ | ⟨v, rest⟩
      · exact invar_refl st
      · rcases hf : lookupA st.failed p with _ | fs
        · exact invar_refl st
        · by_cases hv : v ∈ fs
          · simp only [if_pos hv]
            exact ih inp st (.pkgLoop p rest)
          · simp only [if_neg hv]
            rcases hl : lookupA st.locked p with _ | ov
            · exact invar_refl st
            · rcases ov with _ | lockedVersion
              · have hnf : v ∉ failedOf st p := by
                  unfold failedOf
                  rw [hf]
                  exact hv
                have h2 := ih inp (lockPkg st p v) (.pkgVersion p v)
                rcases hres : run fuel inp (lockPkg st p v) (.pkgVersion p v)
                  with ⟨st2, oe⟩
                rw [hres] at h2
                have hinv : Invar st st2 := invar_trans (invar_lock hnf) h2
                rcases oe with _ | e
                · exact hinv
                · cases e <;> exact hinv
              · exact invar_refl st
    | pkgVersion p ver =>
      simp only [run]
      rcases hi : lookupA inp p with _ | vd
      · exact invar_refl st
      · show Invar st (match lookupA vd ver with
          | none => (st, some PyErr.keyError)
          | some depsVersions => run fuel inp st (Call.deps depsVersions [])).1
        rcases hv : lookupA vd ver with _ | dvs
        · exact invar_refl st
        · exact ih inp st (.deps dvs [])
    | deps ds lockedHere =>
      simp only [run]
      rcases ds with _ | ⟨⟨dep, depVers⟩, restDeps⟩
      · exact invar_refl st
      · show Invar st (match lookupA st.locked dep with
          | none => (st, some PyErr.keyError)
          | some (some lockedDep) =>
            if lockedDep ∈ depVers then run fuel inp st (Call.deps restDeps lockedHere)
            else (st, some PyErr.notSolved)
          | some none =>
            run fuel inp st (Call.depVers dep depVers.reverse restDeps lockedHere)).1
        rcases hl : lookupA st.locked dep with _ | ov
        · exact invar_refl st
        · rcases ov with _ | lockedDep
          · exact ih inp st (.depVers dep depVers.reverse restDeps lockedHere)
          · by_cases hm : lockedDep ∈ depVers
            · simp only [if_pos hm]
              exact ih inp st (.deps restDeps lockedHere)
            · simp only [if_neg hm]
              exact invar_refl st
    | depVers dep dvs restDeps lockedHere =>
      simp only [run]
      rcases dvs with _ | ⟨dv, rest⟩
      · exact invar_unlockAll st lockedHere
      · rcases hf : lookupA st.failed dep with _ | fs
        · exact invar_refl st
        · by_cases hv : dv ∈ fs
          · simp only [if_pos hv]
            exact ih inp st (.depVers dep rest restDeps lockedHere)
          · simp only [if_neg hv]
            have hnf : dv ∉ failedOf st dep := by
              unfold failedOf
              rw [hf]
              exact hv
            have h2 := ih inp (lockPkg st dep dv) (.pkg dep)
            rcases hres : run fuel inp (lockPkg st dep dv) (.pkg dep)
              with ⟨st2, oe⟩
            rw [hres] at h2
            have hinv2 : Invar st st2 := invar_trans (invar_lock hnf) h2
            rcases oe with _ | e
            · exact invar_trans hinv2 (ih inp st2 (.deps restDeps (dep :: lockedHere)))
            · cases e with
              | notSolved =>
                show Invar st (match handleNotSolved st2 dep dv with
                  | (st3, none) =>
                    run fuel inp st3 (Call.depVers dep rest restDeps lockedHere)
                  | (st3, some e) => (st3, some e)).1
                have h3 := invar_handle st2 dep dv
                rcases hh : handleNotSolved st2 dep dv with ⟨st3, oe3⟩
                rw [hh] at h3
                have hinv3 : Invar st st3 := invar_trans hinv2 h3
                rcases oe3 with _ | e3
                · exact invar_trans hinv3
                    (ih inp st3 (.depVers dep rest restDeps lockedHere))
                · exact hinv3
              | typeError => exact hinv2
              | keyError => exact hinv2
              | assertError => exact hinv2
              | outOfFuel => exact hinv2

end Invariant

section Claim4

/-- C4: once a `(package, version)` pair is recorded in the failure cache,
it stays recorded for the rest of the run, and that version is never
locked for that package again in any later step, in any call context:
every lock event after the recording avoids the pair, so any occurrence
of the pair in the final event log predates the recording. -/
theorem C4_failure_cache_permanent (fuel : Nat) (inp : SolveInput)
    (st : SolveSt) (pkg p : Pkg) (v : Version) (hv : v ∈ failedOf st p) :
    v ∈ failedOf (attempt_pkg_traversal fuel inp st pkg).1 p ∧
    ((p, v) ∈ (attempt_pkg_traversal fuel inp st pkg).1.log →
      (p, v) ∈ st.log) := by
  obtain ⟨hmono, evs, hlog, hev⟩ := run_invar fuel inp st (.pkg pkg)
  refine ⟨hmono p v hv, fun hm => ?_⟩
  replace hm : (p, v) ∈ (run fuel inp st (.pkg pkg)).1.log := hm
  rw [hlog] at hm
  rcases List.mem_append.mp hm with h1 | h1
  · exact absurd h1 (hev p v hv)
  · exact h1

/-- A state in which version 1.0.0 of R is already recorded as failed. -/
def c4St : SolveSt :=
  ⟨[("pkgR", none)], [("pkgR", [Version.mk3 1 0 0])], []⟩

/-- Witness for C4 on the two-version input, starting from a state whose
failure cache already holds R@1.0.0. -/
theorem C4_failure_cache_permanent_witness :
    Version.mk3 1 0 0 ∈ failedOf c4St "pkgR" ∧
    (Version.mk3 1 0 0 ∈
        failedOf (attempt_pkg_traversal 10 twoVersionInput c4St "pkgR").1
          "pkgR" ∧
      (("pkgR", Version.mk3 1 0 0) ∈
          (attempt_pkg_traversal 10 twoVersionInput c4St "pkgR").1.log →
        ("pkgR", Version.mk3 1 0 0) ∈ c4St.log)) :=
  ⟨by decide, C4_failure_cache_permanent 10 twoVersionInput c4St "pkgR"
    "pkgR" (Version.mk3 1 0 0) (by decide)⟩

end Claim4

section Claim5Amended

/-- C5 (amended): when the package has no locked version,
`attempt_pkg_traversal` iterates the package's own candidate versions in
the stored order of its version map (ascending, oldest first, for
SortedDict inputs) — not descending: the first speculative lock of the
call is the first non-failed version listed, regardless of any newer
versions later in the map. -/
theorem C5_stored_order_first (fuel : Nat) (inp : SolveInput) (st : SolveSt)
    (pkg : Pkg) (vd : List (Version × List (Pkg × List Version)))
    (v : Version) (vrest : List Version) (fs : List Version)
    (hlock : lookupA st.locked pkg = some none)
    (hinp : lookupA inp pkg = some vd)
    (hmap : vd.map (fun e => e.1) = v :: vrest)
    (hfs : lookupA st.failed pkg = some fs)
    (hnf : v ∉ fs) :
    ∃ evs, (attempt_pkg_traversal (fuel + 2) inp st pkg).1.log =
      evs ++ (pkg, v) :: st.log := by
  show ∃ evs, (run (fuel + 2) inp st (.pkg pkg)).1.log =
    evs ++ (pkg, v) :: st.log
  simp only [run, hlock, hinp, hmap, hfs, if_neg hnf]
  obtain ⟨-, evs, hlog, -⟩ :=
    run_invar fuel inp (lockPkg st pkg v) (.pkgVersion pkg v)
  rcases hres : run fuel inp (lockPkg st pkg v) (.pkgVersion pkg v)
    with ⟨st2, oe⟩
  rw [hres] at hlog
  refine ⟨evs, ?_⟩
  rcases oe with _ | e
  · simpa [lockPkg] using hlog
  · cases e <;> simpa [lockPkg] using hlog

/-- Witness for C5 (amended) on the two-version input from the fresh
state: the first lock event is R@1.0.0, the first listed version. -/
theorem C5_stored_order_first_witness :
    lookupA (initState twoVersionInput).locked "pkgR" = some none ∧
    lookupA twoVersionInput "pkgR" =
      some [(Version.mk3 1 0 0, []), (Version.mk3 2 0 0, [])] ∧
    ([(Version.mk3 1 0 0, ([] : List (Pkg × List Version))),
      (Version.mk3 2 0 0, [])].map (fun e => e.1) =
      [Version.mk3 1 0 0, Version.mk3 2 0 0]) ∧
    lookupA (initState twoVersionInput).failed "pkgR" = some [] ∧
    Version.mk3 1 0 0 ∉ ([] : List Version) ∧
    ∃ evs, (attempt_pkg_traversal 8 twoVersionInput
        (initState twoVersionInput) "pkgR").1.log =
      evs ++ ("pkgR", Version.mk3 1 0 0) :: (initState twoVersionInput).log :=
  ⟨by decide, by decide, by decide, by decide, by decide,
    C5_stored_order_first 6 twoVersionInput (initState twoVersionInput)
      "pkgR" [(Version.mk3 1 0 0, []), (Version.mk3 2 0 0, [])]
      (Version.mk3 1 0 0) [Version.mk3 2 0 0] [] (by decide) (by decide)
      (by decide) (by decide) (by decide)⟩

end Claim5Amended

end Semantic
